import Mathlib

/-!
The logstash adapter of logspout-rancher-ledger (`logstash.go`).

A shallow embedding of the enrichment-and-forwarding pipeline of `logstash.go`:
the per-adapter static-field cache (`GetLogstashFields`), the process-wide
Rancher metadata cache (`GetRancherId`, `Cache`, `ExistsInCache`,
`GetFromCache`, `GetRancherInfo`) and the body of the `Stream` loop.

Conventions of the embedding

* A Go `string` is a Lean `String`; the two separators the code splits on
  (`,` and `=`) and the prefix it tests are ASCII, so working on characters
  agrees with Go's byte-wise functions.
* A Go `map[string]V` is an association list in which the first binding of a
  key is the one that counts; `mapSet` removes the older bindings.
* A Go pointer that the code may find nil is an `Option`.
* A run-time panic and `log.Fatal` end the call with a `Failure`; every
  function returns its outcome together with the state reached.
* What lives outside the repository (the process environment, the Rancher API
  client, the network connection) is a field of `Env`.
* `json.Unmarshal` and `json.Marshal` are modelled on the values the adapter
  handles; the scanner of JSON text and the reading and writing of float64
  numbers are fields of `Env`.
-/

namespace Logstash

/-! ## Go maps -/

/-- A Go `map[string]V` that has been allocated. -/
abbrev GoMap (V : Type) := List (String × V)

/-- The comma-ok lookup `v, ok := m[k]`. -/
def mapGet {V : Type} : GoMap V → String → Option V
  | [], _ => none
  | (k', v) :: m, k => if k' = k then some v else mapGet m k

/-- The assignment `m[k] = v`. -/
def mapSet {V : Type} (m : GoMap V) (k : String) (v : V) : GoMap V :=
  (k, v) :: m.filter (fun p => !decide (p.1 = k))

/-- The keys a `range` over the map visits. -/
def mapKeys {V : Type} (m : GoMap V) : List String :=
  m.map Prod.fst

/-! ## Failures -/

/-- The ways a call can end other than by returning. -/
inductive Failure where
  /-- Go run-time panic: index out of range. -/
  | indexOutOfRange
  /-- Go run-time panic: nil pointer dereference. -/
  | nilDereference
  /-- Go run-time panic: assignment to entry in nil map. -/
  | nilMapAssign
  /-- The process was ended by `log.Fatal`. -/
  | fatal (msg : String)
  deriving DecidableEq, Repr

/-! ## Data model -/

/-- The fields of `docker.Config` the adapter reads. -/
structure Config where
  Image : String
  Hostname : String
  Env : List String
  deriving DecidableEq, Repr

/-- The fields of `docker.Container` the adapter reads. The container and its
`Config` are the ones logspout's router hands over, both non-nil. -/
structure Container where
  Name : String
  ID : String
  Config : Config
  deriving DecidableEq, Repr

/-- Go struct `DockerInfo`. -/
structure DockerInfo where
  Name : String
  ID : String
  Image : String
  Hostname : String
  deriving DecidableEq, Repr

/-- Go struct `RancherContainer`. -/
structure RancherContainer where
  Name : String
  IP : String
  ID : String
  HostID : String
  DockerID : String
  deriving DecidableEq, Repr

/-- Go struct `RancherStack`. -/
structure RancherStack where
  Service : String
  StackName : String
  StackState : String
  deriving DecidableEq, Repr

/-- Go struct `RancherInfo`; `Container` and `Stack` are pointers. -/
structure RancherInfo where
  Environment : String
  Container : Option RancherContainer
  Stack : Option RancherStack
  deriving DecidableEq, Repr

/-- The fields of the Rancher API's `client.Container` that are read. -/
structure ApiContainer where
  Id : String
  HostId : String
  ServiceId : String
  StackId : String
  Labels : GoMap String
  deriving DecidableEq, Repr

/-- The Rancher API's `client.ContainerCollection`. -/
structure ContainerCollection where
  Data : List ApiContainer
  deriving DecidableEq, Repr

/-- The field of the Rancher API's `client.Service` that is read. -/
structure ApiService where
  Name : String
  deriving DecidableEq, Repr

/-- The fields of the Rancher API's `client.Stack` that are read. -/
structure ApiStack where
  Name : String
  State : String
  deriving DecidableEq, Repr

/-- One call to the Rancher API. -/
inductive RemoteCall where
  /-- The call `rancher.Container.List` filtered by this `externalId`. -/
  | containerList (id : String)
  /-- The call `rancher.Service.ById`. -/
  | serviceById (id : String)
  /-- The call `rancher.Stack.ById`. -/
  | stackById (id : String)
  deriving DecidableEq, Repr

/-- A value held in a Go `interface{}` of the record: what `json.Unmarshal`
stores (nil, bool, float64 as its bit pattern, string, slice, map) and what the
adapter stores (string, `DockerInfo`, `*RancherInfo`). -/
inductive Value where
  | null
  | bool (b : Bool)
  | number (bits : Nat)
  | str (s : String)
  | array (items : List Value)
  | object (kvs : List (String × Value))
  | dockerInfo (d : DockerInfo)
  | rancherInfo (r : Option RancherInfo)

/-- The value a JSON text denotes. A number is kept as its literal: whether it
fits a float64 is decided when it is decoded. -/
inductive Json where
  | null
  | bool (b : Bool)
  | number (literal : String)
  | str (s : String)
  | array (items : List Json)
  | object (members : List (String × Json))

/-- The characters of the text `json.Marshal` writes for a float64
(`strconv.AppendFloat` in the formats f and e). -/
inductive NumChar where
  | digit (d : Fin 10)
  | point
  | exponent
  | plus
  | minus
  deriving DecidableEq, Repr

/-- A byte. -/
abbrev Byte := Nat

/-- The collaborators outside the repository. The answers of the Rancher API
may depend on the calls made so far, those of the connection on the writes
made so far. -/
structure Env where
  /-- The value of `os.Getenv("LOGSTASH_FIELDS")`. -/
  getenv : String
  /-- The pair returned by `rancher.Container.List`. -/
  containerList : List RemoteCall → String → Option ContainerCollection × Option String
  /-- The pair returned by `rancher.Service.ById`. -/
  serviceById : List RemoteCall → String → Option ApiService × Option String
  /-- The pair returned by `rancher.Stack.ById`. -/
  stackById : List RemoteCall → String → Option ApiStack × Option String
  /-- The scanner of `encoding/json`: the value a text denotes, `none` when
  the scanner rejects the text (it is not JSON, or it is nested deeper than the
  scanner follows). -/
  parseJSON : String → Option Json
  /-- Go `strconv.ParseFloat(s, 64)` on the literal of a JSON number: the bit
  pattern of the float64, `none` when the number is out of range. -/
  parseFloat : String → Option Nat
  /-- The text `json.Marshal` writes for a float64 given by its bit pattern,
  `none` for NaN and the infinities, which it refuses. -/
  formatFloat : Nat → Option (List NumChar)
  /-- The error returned by `conn.Write`, if any. -/
  connWrite : List (List Byte) → List Byte → Option String

/-- The mutable state: the package globals, the adapter's field cache, and the
traces of what was sent to the collaborators. -/
structure State where
  /-- Package variable `cCache`, allocated by `init`. -/
  cCache : GoMap (Option RancherInfo)
  /-- Field `logstashFields` of the adapter, allocated by `NewLogstashAdapter`. -/
  logstashFields : GoMap (GoMap String)
  /-- The calls made to the Rancher API, oldest first. -/
  calls : List RemoteCall
  /-- The byte slices passed to `conn.Write`, oldest first. -/
  writes : List (List Byte)
  /-- The lines handed to the `log` package, oldest first. -/
  logs : List String

/-! ## strings -/

/-- Go `strings.Split(s, sep)` for a separator of one byte, on characters. -/
def splitChars (sep : Char) : List Char → List (List Char)
  | [] => [[]]
  | c :: cs =>
    if c = sep then [] :: splitChars sep cs
    else
      match splitChars sep cs with
      | [] => [[c]]
      | seg :: segs => (c :: seg) :: segs

/-- Go `strings.Split(s, sep)` for a separator of one byte. -/
def stringsSplit (s : String) (sep : Char) : List String :=
  (splitChars sep s.data).map String.mk

/-- Go `strings.HasPrefix`. -/
def stringsHasPrefix (s p : String) : Bool :=
  p.data.isPrefixOf s.data

/-- Go `strings.TrimPrefix`. -/
def stringsTrimPrefix (s p : String) : String :=
  if stringsHasPrefix s p then String.mk (s.data.drop p.data.length) else s

/-! ## GetLogstashFields -/

/-- The loop over `c.Config.Env` (lines 85-89). -/
def envOverride : List String → String → String
  | [], fieldsStr => fieldsStr
  | e :: es, fieldsStr =>
    if stringsHasPrefix e "LOGSTASH_FIELDS=" then
      envOverride es (stringsTrimPrefix e "LOGSTASH_FIELDS=")
    else envOverride es fieldsStr

/-- The loop over the comma-separated segments (lines 92-96). -/
def parseFields : List String → GoMap String → Except Failure (GoMap String)
  | [], fields => .ok fields
  | f :: fs, fields =>
    match stringsSplit f '=' with
    | k :: v :: _ => parseFields fs (mapSet fields k v)
    | _ => .error .indexOutOfRange

/-- Lines 83 and 91-97: the mapping parsed from the effective field string. -/
def parseFieldString (fieldsStr : String) : Except Failure (GoMap String) :=
  if fieldsStr.length > 0 then parseFields (stringsSplit fieldsStr ',') []
  else .ok []

/-- Go `GetLogstashFields(c, a)`; `getenv` is `os.Getenv("LOGSTASH_FIELDS")`. -/
def GetLogstashFields (getenv : String) (c : Container) (s : State) :
    Except Failure (GoMap String) × State :=
  match mapGet s.logstashFields c.ID with
  | some fields => (.ok fields, s)
  | none =>
    match parseFieldString (envOverride c.Config.Env getenv) with
    | .error f => (.error f, s)
    | .ok fields =>
      (.ok fields, { s with logstashFields := mapSet s.logstashFields c.ID fields })

/-! ## The Rancher metadata cache -/

/-- The effect of `log.Print(err)` under `if err != nil`. -/
def logErr (logs : List String) (err : Option String) : List String :=
  match err with
  | some e => logs ++ [e]
  | none => logs

/-- The lookup `labels[k]` of a `map[string]string`: the empty string when the
key is absent. -/
def label (labels : GoMap String) (k : String) : String :=
  (mapGet labels k).getD ""

/-- Go `GetRancherId(cID)`: the address of `container.Data[0]`. -/
def GetRancherId (E : Env) (cID : String) (s : State) :
    Except Failure (Option ApiContainer) × State :=
  let r := E.containerList s.calls cID
  let s1 : State :=
    { s with calls := s.calls ++ [RemoteCall.containerList cID], logs := logErr s.logs r.2 }
  match r.1 with
  | none => (.error .nilDereference, s1)
  | some container =>
    match container.Data with
    | [] => (.error .indexOutOfRange, s1)
    | d :: _ => (.ok (some d), s1)

/-- Go `Cache(con)`. -/
def Cache (con : Option RancherInfo) (s : State) : Except Failure Unit × State :=
  match con with
  | none => (.error .nilDereference, s)
  | some ri =>
    match ri.Container with
    | none => (.error .nilDereference, s)
    | some c => (.ok (), { s with cCache := mapSet s.cCache c.DockerID con })

/-- Go `ExistsInCache(containerID)`. -/
def ExistsInCache (containerID : String) (s : State) : Bool :=
  (mapKeys s.cCache).any (fun k => decide (k = containerID))

/-- Go `GetFromCache(cID)`: `cCache[cID]`, nil when the key is absent. -/
def GetFromCache (cID : String) (s : State) : Option RancherInfo :=
  (mapGet s.cCache cID).getD none

/-- Go `GetRancherInfo(c)`. -/
def GetRancherInfo (E : Env) (c : Container) (s : State) :
    Except Failure (Option RancherInfo) × State :=
  if !ExistsInCache c.ID s then
    match GetRancherId E c.ID s with
    | (.error f, s1) => (.error f, s1)
    | (.ok none, s1) =>
      (.ok none, { s1 with logs := s1.logs ++ ["Could not find rancher metadata in the API"] })
    | (.ok (some rcontainer), s1) =>
      let rs := E.serviceById s1.calls rcontainer.ServiceId
      let s2 : State :=
        { s1 with calls := s1.calls ++ [RemoteCall.serviceById rcontainer.ServiceId],
                  logs := logErr s1.logs rs.2 }
      let rt := E.stackById s2.calls rcontainer.StackId
      let s3 : State :=
        { s2 with calls := s2.calls ++ [RemoteCall.stackById rcontainer.StackId],
                  logs := logErr s2.logs rt.2 }
      let container : RancherContainer :=
        { Name := label rcontainer.Labels "io.rancher.container.name",
          IP := label rcontainer.Labels "io.rancher.container.ip",
          ID := rcontainer.Id,
          HostID := rcontainer.HostId,
          DockerID := c.ID }
      match rs.1 with
      | none => (.error .nilDereference, s3)
      | some service =>
        match rt.1 with
        | none => (.error .nilDereference, s3)
        | some stackData =>
          let stack : RancherStack :=
            { Service := service.Name,
              StackName := stackData.Name,
              StackState := stackData.State }
          let environment := label rcontainer.Labels "io.kubernetes.pod.namespace"
          let rancherInfo : RancherInfo :=
            { Environment := environment,
              Container := some container,
              Stack := some stack }
          match Cache (some rancherInfo) s3 with
          | (.error f, s4) => (.error f, s4)
          | (.ok _, s4) => (.ok (some rancherInfo), s4)
  else (.ok (GetFromCache c.ID s), s)

/-! ## Stream -/

/-- The fields of `router.Message` the adapter reads. -/
structure Message where
  Data : String
  Container : Container

/-- The Go map a JSON object decodes to: the decoded members are stored in the
order of the text, so a repeated key keeps its last value. -/
def objectMap (kvs : List (String × Value)) : GoMap Value :=
  kvs.foldl (fun m p => mapSet m p.1 p.2) []

/-- The error `json.Unmarshal` returns: the first one it saved. -/
def firstError (a b : Option String) : Option String :=
  match a with
  | some e => some e
  | none => b

mutual
/-- The Go value `json.Unmarshal` stores in an `interface{}` for a JSON value,
and the error it saves on the way. A number outside float64 leaves nil and
saves an `UnmarshalTypeError`; the decoding goes on. -/
def decodeValue (parseFloat : String → Option Nat) : Json → Value × Option String
  | .null => (Value.null, none)
  | .bool b => (Value.bool b, none)
  | .number literal =>
    match parseFloat literal with
    | some bits => (Value.number bits, none)
    | none =>
      (Value.null,
        some ("json: cannot unmarshal number " ++ literal ++ " into Go value of type float64"))
  | .str s => (Value.str s, none)
  | .array items =>
    (Value.array (decodeItems parseFloat items).1, (decodeItems parseFloat items).2)
  | .object members =>
    (Value.object (objectMap (decodeMembers parseFloat members).1),
      (decodeMembers parseFloat members).2)
/-- The elements of a JSON array, decoded in order. -/
def decodeItems (parseFloat : String → Option Nat) : List Json → List Value × Option String
  | [] => ([], none)
  | j :: js =>
    ((decodeValue parseFloat j).1 :: (decodeItems parseFloat js).1,
      firstError (decodeValue parseFloat j).2 (decodeItems parseFloat js).2)
/-- The members of a JSON object, decoded in order. -/
def decodeMembers (parseFloat : String → Option Nat) :
    List (String × Json) → List (String × Value) × Option String
  | [] => ([], none)
  | (k, j) :: ms =>
    ((k, (decodeValue parseFloat j).1) :: (decodeMembers parseFloat ms).1,
      firstError (decodeValue parseFloat j).2 (decodeMembers parseFloat ms).2)
end

/-- Go `json.Unmarshal([]byte(raw), &data)` for a nil `data` of type
`map[string]interface{}`: the value of `data` after the call and the error.
A JSON object fills a fresh map and the call returns the error saved while its
members were decoded, if any; any other JSON value but null is a type error
and text that is not JSON an error of the scanner. For null the documentation
of `encoding/json` says: "The JSON null value unmarshals into an interface,
map, pointer, or slice by setting that Go value to nil", and no error is
returned. -/
def jsonUnmarshal (E : Env) (raw : String) : Option (GoMap Value) × Option String :=
  match E.parseJSON raw with
  | none => (none, some "invalid character")
  | some (.object members) =>
    (some (objectMap (decodeMembers E.parseFloat members).1),
      (decodeMembers E.parseFloat members).2)
  | some .null => (none, none)
  | some _ => (none, some "json: cannot unmarshal into Go value of type map[string]interface {}")

/-- Lines 219-228 of `Stream`: `data` after the attempt to parse the raw text,
replaced by the one-key map under `message` when the parse gave an error. -/
def parseData (E : Env) (raw : String) : Option (GoMap Value) :=
  let u := jsonUnmarshal E raw
  if u.2.isSome then some (mapSet [] "message" (Value.str raw)) else u.1

/-- The loop `for k, v := range fields { data[k] = v }` (lines 230-232); an
assignment into a nil `data` panics. -/
def overlayFields : GoMap String → Option (GoMap Value) → Except Failure (Option (GoMap Value))
  | [], data => .ok data
  | (k, v) :: rest, data =>
    match overlayFields rest data with
    | .error f => .error f
    | .ok none => .error .nilMapAssign
    | .ok (some d) => .ok (some (mapSet d k (Value.str v)))

/-- Lines 219-243 of `Stream`: the record `data` built from the raw text, the
static fields, the docker descriptor and the resolved metadata. -/
def buildData (E : Env) (raw : String) (fields : GoMap String) (dockerInfo : DockerInfo)
    (rancherInfo : Option RancherInfo) : Except Failure (GoMap Value) :=
  match overlayFields fields (parseData E raw) with
  | .error f => .error f
  | .ok none => .error .nilMapAssign
  | .ok (some d) =>
    let d := mapSet d "docker" (Value.dockerInfo dockerInfo)
    let d := mapSet d "rancher" (Value.rancherInfo rancherInfo)
    match rancherInfo with
    | none => .error .nilDereference
    | some ri =>
      match ri.Stack with
      | none => .error .nilDereference
      | some st =>
        if st.StackName ≠ "" then .ok (mapSet d "index" (Value.str st.StackName))
        else
          match ri.Container with
          | none => .error .nilDereference
          | some c => .ok (mapSet d "index" (Value.str c.Name))

/-- Lines 208-243 of `Stream`: one message up to the finished record. -/
def streamRecord (E : Env) (s : State) (m : Message) : Except Failure (GoMap Value) × State :=
  let dockerInfo : DockerInfo :=
    { Name := m.Container.Name,
      ID := m.Container.ID,
      Image := m.Container.Config.Image,
      Hostname := m.Container.Config.Hostname }
  match GetLogstashFields E.getenv m.Container s with
  | (.error f, s1) => (.error f, s1)
  | (.ok fields, s1) =>
    match GetRancherInfo E m.Container s1 with
    | (.error f, s2) => (.error f, s2)
    | (.ok rancherInfo, s2) => (buildData E m.Data fields dockerInfo rancherInfo, s2)

/-! ## json.Marshal -/

/-- The byte `json.Marshal` takes from `0123456789abcdef`. -/
def hexDigit (d : Nat) : Nat :=
  if d < 10 then 48 + d else 87 + d

/-- The UTF-8 bytes of a code point. -/
def utf8 (n : Nat) : List Nat :=
  if n < 0x80 then [n]
  else if n < 0x800 then [0xC0 + n / 64, 0x80 + n % 64]
  else if n < 0x10000 then [0xE0 + n / 4096, 0x80 + n / 64 % 64, 0x80 + n % 64]
  else [0xF0 + n / 262144, 0x80 + n / 4096 % 64, 0x80 + n / 64 % 64, 0x80 + n % 64]

/-- The ASCII bytes `json.Marshal` copies into a string as they are: from the
space on, without the quote, the backslash and the three it escapes for HTML
(`&`, `<`, `>`). -/
def htmlSafe (n : Nat) : Bool :=
  decide (0x20 ≤ n) && !decide (n = 34) && !decide (n = 38) && !decide (n = 60) &&
    !decide (n = 62) && !decide (n = 92)

/-- The bytes `json.Marshal` writes for one character of a string: a backslash
before the quote and the backslash, `\b`, `\f`, `\n`, `\r`, `\t` (releases of
Go before 1.22 wrote `\u0008` and `\u000c` for the first two), `\u00XX` for the
other ASCII bytes it does not copy, `\u2028` and `\u2029` for these two code
points, and the UTF-8 bytes of everything else. -/
def escapeChar (c : Char) : List Nat :=
  let n := c.toNat
  if n < 0x80 then
    if htmlSafe n then [n]
    else if n = 92 ∨ n = 34 then [92, n]
    else if n = 8 then [92, 98]
    else if n = 12 then [92, 102]
    else if n = 10 then [92, 110]
    else if n = 13 then [92, 114]
    else if n = 9 then [92, 116]
    else [92, 117, 48, 48, hexDigit (n / 16), hexDigit (n % 16)]
  else if n = 0x2028 ∨ n = 0x2029 then [92, 117, 50, 48, 50, hexDigit (n % 16)]
  else utf8 n

/-- The bytes `json.Marshal` writes for a Go string. -/
def encodeString (s : String) : List Nat :=
  [34] ++ s.data.flatMap escapeChar ++ [34]

/-- The byte of a character of a number. -/
def NumChar.byte : NumChar → Nat
  | .digit d => 48 + d.val
  | .point => 46
  | .exponent => 101
  | .plus => 43
  | .minus => 45

/-- The parts of an array or an object with a comma between them. -/
def joinComma : List (List Nat) → List Nat
  | [] => []
  | [b] => b
  | b :: c :: bs => b ++ [44] ++ joinComma (c :: bs)

/-- A Go struct: the fields that are not omitted, as `"name":value`, in the
order of the declaration, in braces. A field is `none` when its tag says
`omitempty` and it is the empty string or a nil pointer. -/
def encodeStruct (fields : List (String × Option (List Nat))) : List Nat :=
  [123] ++
    joinComma (fields.filterMap
      (fun f => f.2.map (fun b => encodeString f.1 ++ [58] ++ b))) ++
    [125]

/-- A string field tagged `omitempty`. -/
def omitEmpty (s : String) : Option (List Nat) :=
  if s = "" then none else some (encodeString s)

/-- The bytes `json.Marshal` writes for a `DockerInfo`. -/
def encodeDockerInfo (d : DockerInfo) : List Nat :=
  encodeStruct
    [("name", some (encodeString d.Name)),
     ("id", some (encodeString d.ID)),
     ("image", some (encodeString d.Image)),
     ("hostname", some (encodeString d.Hostname))]

/-- The bytes `json.Marshal` writes for a `RancherContainer`. -/
def encodeRancherContainer (c : RancherContainer) : List Nat :=
  encodeStruct
    [("name", some (encodeString c.Name)),
     ("ip", omitEmpty c.IP),
     ("once", omitEmpty c.ID),
     ("hostId", omitEmpty c.HostID),
     ("dockerId", omitEmpty c.DockerID)]

/-- The bytes `json.Marshal` writes for a `RancherStack`. -/
def encodeRancherStack (st : RancherStack) : List Nat :=
  encodeStruct
    [("service", omitEmpty st.Service),
     ("stackName", omitEmpty st.StackName),
     ("stackState", omitEmpty st.StackState)]

/-- The bytes `json.Marshal` writes for a `*RancherInfo`: `null` for nil. -/
def encodeRancherInfo : Option RancherInfo → List Nat
  | none => [110, 117, 108, 108]
  | some r =>
    encodeStruct
      [("environment", omitEmpty r.Environment),
       ("container", r.Container.map encodeRancherContainer),
       ("stack", r.Stack.map encodeRancherStack)]

/-- One step of the sort of the keys of a map. -/
def insertEntry {α : Type} (p : String × α) : List (String × α) → List (String × α)
  | [] => [p]
  | q :: qs => if p.1.data < q.1.data then p :: q :: qs else q :: insertEntry p qs

/-- The entries of a map in the order of their keys, as `json.Marshal` writes
them. -/
def sortEntries {α : Type} : List (String × α) → List (String × α)
  | [] => []
  | p :: ps => insertEntry p (sortEntries ps)

/-- The entries of a Go map: for every key the binding that counts. -/
def mapEntries {V : Type} : GoMap V → GoMap V
  | [] => []
  | (k, v) :: m => (k, v) :: (mapEntries m).filter (fun p => !decide (p.1 = k))

/-- The entries `"key":value` of an object, up to the first value that
`json.Marshal` refuses. -/
def collectEntries :
    List (String × Except String (List Nat)) → Except String (List (List Nat))
  | [] => .ok []
  | (_, .error e) :: _ => .error e
  | (k, .ok b) :: rest =>
    match collectEntries rest with
    | .error e => .error e
    | .ok parts => .ok ((encodeString k ++ [58] ++ b) :: parts)

/-- A Go map whose values are already encoded: its entries sorted by key, in
braces. -/
def encodeMapEntries (members : List (String × Except String (List Nat))) :
    Except String (List Nat) :=
  match collectEntries (sortEntries (mapEntries members)) with
  | .error e => .error e
  | .ok parts => .ok ([123] ++ joinComma parts ++ [125])

mutual
/-- The bytes `json.Marshal` writes for the value held in an `interface{}`. -/
def encodeValue (formatFloat : Nat → Option (List NumChar)) :
    Value → Except String (List Nat)
  | .null => .ok [110, 117, 108, 108]
  | .bool true => .ok [116, 114, 117, 101]
  | .bool false => .ok [102, 97, 108, 115, 101]
  | .number bits =>
    match formatFloat bits with
    | some cs => .ok (cs.map NumChar.byte)
    | none => .error "json: unsupported value"
  | .str s => .ok (encodeString s)
  | .array items =>
    match encodeItems formatFloat items with
    | .error e => .error e
    | .ok parts => .ok ([91] ++ joinComma parts ++ [93])
  | .object kvs => encodeMapEntries (encodeMembers formatFloat kvs)
  | .dockerInfo d => .ok (encodeDockerInfo d)
  | .rancherInfo r => .ok (encodeRancherInfo r)
/-- The elements of a slice, encoded in order. -/
def encodeItems (formatFloat : Nat → Option (List NumChar)) :
    List Value → Except String (List (List Nat))
  | [] => .ok []
  | v :: vs =>
    match encodeValue formatFloat v with
    | .error e => .error e
    | .ok b =>
      match encodeItems formatFloat vs with
      | .error e => .error e
      | .ok bs => .ok (b :: bs)
/-- The bindings of a map with their values encoded. -/
def encodeMembers (formatFloat : Nat → Option (List NumChar)) :
    List (String × Value) → List (String × Except String (List Nat))
  | [] => []
  | (k, v) :: kvs => (k, encodeValue formatFloat v) :: encodeMembers formatFloat kvs
end

/-- Go `json.Marshal(data)` for the record, a non-nil `map[string]interface{}`. -/
def jsonMarshal (E : Env) (data : GoMap Value) : Except String (List Byte) :=
  encodeMapEntries (encodeMembers E.formatFloat data)

/-- The body of the `Stream` loop (lines 208-258) for one message. -/
def streamBody (E : Env) (s : State) (m : Message) : Except Failure Unit × State :=
  match streamRecord E s m with
  | (.error f, s1) => (.error f, s1)
  | (.ok data, s1) =>
    match jsonMarshal E data with
    | .error e =>
      (.ok (), { s1 with logs := s1.logs ++ ["logstash: could not marshal JSON: " ++ e] })
    | .ok js =>
      let js := js ++ [10]
      let s2 : State := { s1 with writes := s1.writes ++ [js] }
      match E.connWrite s1.writes js with
      | some e =>
        (.error (.fatal ("logstash: could not write:" ++ e)),
          { s2 with logs := s2.logs ++ ["logstash: could not write:" ++ e] })
      | none => (.ok (), s2)

/-- Go `Stream`: the loop over the messages the channel delivers before it is
closed; a failure ends the process. -/
def Stream (E : Env) : State → List Message → Except Failure Unit × State
  | s, [] => (.ok (), s)
  | s, m :: ms =>
    match streamBody E s m with
    | (.error f, s1) => (.error f, s1)
    | (.ok _, s1) => Stream E s1 ms

/-! ## Sequences of calls -/

/-- One call into the package. -/
inductive Action where
  /-- A call `GetLogstashFields(c, a)` while `LOGSTASH_FIELDS` has this value. -/
  | getLogstashFields (getenv : String) (c : Container)
  /-- A call `GetRancherInfo(c)`. -/
  | getRancherInfo (E : Env) (c : Container)
  /-- A call `Cache(con)`. -/
  | cache (con : Option RancherInfo)
  /-- One turn of the `Stream` loop. -/
  | stream (E : Env) (m : Message)

/-- The outcome of one call and the state it leaves. -/
def runAction (a : Action) (s : State) : Except Failure Unit × State :=
  match a with
  | .getLogstashFields getenv c =>
    ((GetLogstashFields getenv c s).1.map (fun _ => ()), (GetLogstashFields getenv c s).2)
  | .getRancherInfo E c =>
    ((GetRancherInfo E c s).1.map (fun _ => ()), (GetRancherInfo E c s).2)
  | .cache con => Cache con s
  | .stream E m => streamBody E s m

/-- The calls of a list made one after the other, up to the first failure. -/
def runActions : State → List Action → Except Failure Unit × State
  | s, [] => (.ok (), s)
  | s, a :: as =>
    match runAction a s with
    | (.error f, s1) => (.error f, s1)
    | (.ok _, s1) => runActions s1 as

/-! ## The specification's words -/

/-- The effective field string as the specification describes it: the last
entry of `Env` that starts with `LOGSTASH_FIELDS=`, without that start, and the
process-wide default when there is no such entry. -/
def effectiveFieldString (env : List String) (dflt : String) : String :=
  match (env.filter (fun e => stringsHasPrefix e "LOGSTASH_FIELDS=")).getLast? with
  | some e => String.mk (e.data.drop 16)
  | none => dflt

/-- The condition under which the specification has the parse fail: the string
is not empty and one of its comma-separated segments holds no `=`. -/
def malformedFieldString (fieldsStr : String) : Prop :=
  fieldsStr ≠ "" ∧ ∃ seg ∈ stringsSplit fieldsStr ',', '=' ∉ seg.data

instance (fieldsStr : String) : Decidable (malformedFieldString fieldsStr) := by
  unfold malformedFieldString
  infer_instance

/-! ## Concrete inputs -/

/-- The state right after `init` and `NewLogstashAdapter`: both caches empty. -/
def emptyState : State :=
  { cCache := [], logstashFields := [], calls := [], writes := [], logs := [] }

/-- A container with a per-container field string. -/
def web : Container :=
  { Name := "/web", ID := "4f2a",
    Config := { Image := "nginx:1.25", Hostname := "web-1",
                Env := ["PATH=/usr/bin", "LOGSTASH_FIELDS=env=prod,team=core"] } }

/-- The container `web` seen later with another environment. -/
def webLater : Container :=
  { Name := "/web", ID := "4f2a",
    Config := { Image := "nginx:1.25", Hostname := "web-1",
                Env := ["LOGSTASH_FIELDS=broken"] } }

/-- A container whose field string ends in a comma. -/
def trailing : Container :=
  { Name := "/job", ID := "b81d",
    Config := { Image := "busybox", Hostname := "job-1",
                Env := ["LOGSTASH_FIELDS=env=prod,"] } }

/-- A container the Rancher API does not know. -/
def ghost : Container :=
  { Name := "/ghost", ID := "9c1e",
    Config := { Image := "busybox", Hostname := "ghost-1", Env := [] } }

/-- A container outside every stack. -/
def solo : Container :=
  { Name := "/solo", ID := "77aa",
    Config := { Image := "redis:7", Hostname := "solo-1", Env := [] } }

/-- The Rancher record of `web`. -/
def apiWeb : ApiContainer :=
  { Id := "1i42", HostId := "1h7", ServiceId := "1s9", StackId := "1st3",
    Labels := [("io.rancher.container.name", "checkout-web-1"),
               ("io.rancher.container.ip", "10.42.0.7"),
               ("io.kubernetes.pod.namespace", "production")] }

/-- The Rancher record of `solo`. -/
def apiSolo : ApiContainer :=
  { Id := "1i50", HostId := "1h7", ServiceId := "1s11", StackId := "1st0",
    Labels := [("io.rancher.container.name", "solo-1")] }

/-- The JSON value of the raw messages used below. -/
def demoParse (raw : String) : Option Json :=
  if raw = "\x7b\"level\":\"info\",\"index\":\"mine\"\x7d" then
    some (Json.object [("level", Json.str "info"), ("index", Json.str "mine")])
  else if raw = "\x7b\"a\":1e999\x7d" then
    some (Json.object [("a", Json.number "1e999")])
  else if raw = "null" then some Json.null
  else if raw = "42" then some (Json.number "42")
  else none

/-- Go `strconv.ParseFloat` on the two number literals used below: 42 is a
float64, 1e999 is out of range. -/
def demoParseFloat (literal : String) : Option Nat :=
  if literal = "42" then some 4631107791820423168 else none

/-- The text of the float64 used below, 42. -/
def demoFormatFloat (bits : Nat) : Option (List NumChar) :=
  if bits = 4631107791820423168 then some [NumChar.digit 4, NumChar.digit 2] else none

/-- A Rancher API that knows `web` and `solo`, a connection that accepts every
write, and an empty process-wide default. -/
def demoEnv : Env :=
  { getenv := "",
    containerList := fun _ id =>
      if id = "4f2a" then (some { Data := [apiWeb] }, none)
      else if id = "77aa" then (some { Data := [apiSolo] }, none)
      else (some { Data := [] }, none),
    serviceById := fun _ id =>
      if id = "1s9" then (some { Name := "web" }, none) else (some { Name := "" }, none),
    stackById := fun _ id =>
      if id = "1st3" then (some { Name := "checkout", State := "active" }, none)
      else (some { Name := "", State := "" }, none),
    parseJSON := demoParse,
    parseFloat := demoParseFloat,
    formatFloat := demoFormatFloat,
    connWrite := fun _ _ => none }

/-- The metadata `GetRancherInfo` assembles for `web`. -/
def webInfo : RancherInfo :=
  { Environment := "production",
    Container := some { Name := "checkout-web-1", IP := "10.42.0.7", ID := "1i42",
                        HostID := "1h7", DockerID := "4f2a" },
    Stack := some { Service := "web", StackName := "checkout", StackState := "active" } }

/-- The metadata `GetRancherInfo` assembles for `solo`. -/
def soloInfo : RancherInfo :=
  { Environment := "",
    Container := some { Name := "solo-1", IP := "", ID := "1i50",
                        HostID := "1h7", DockerID := "77aa" },
    Stack := some { Service := "", StackName := "", StackState := "" } }

/-- The state after the metadata of `web` was resolved from `emptyState`. -/
def webResolved : State :=
  { cCache := [("4f2a", some webInfo)], logstashFields := [],
    calls := [RemoteCall.containerList "4f2a", RemoteCall.serviceById "1s9",
              RemoteCall.stackById "1st3"],
    writes := [], logs := [] }

/-- The state in which the metadata of `web` and of `solo` is cached. -/
def warmState : State :=
  { cCache := [("77aa", some soloInfo), ("4f2a", some webInfo)], logstashFields := [],
    calls := [], writes := [], logs := [] }

/-- A structured log line of `web`; it carries a key `index` of its own. -/
def jsonMessage : Message :=
  { Data := "\x7b\"level\":\"info\",\"index\":\"mine\"\x7d", Container := web }

/-- A plain-text log line of `solo`. -/
def plainMessage : Message :=
  { Data := "plain text line", Container := solo }

/-- A log line of `web` that consists of the JSON text `null`. -/
def nullMessage : Message :=
  { Data := "null", Container := web }

/-- A structured log line of `solo`. -/
def soloMessage : Message :=
  { Data := "\x7b\"level\":\"info\",\"index\":\"mine\"\x7d", Container := solo }

/-- The collaborators of `demoEnv` with a process-wide default that names the
reserved keys `docker` and `rancher`. -/
def shadowEnv : Env :=
  { demoEnv with getenv := "docker=x,rancher=y" }

/-- The docker descriptor of `web`. -/
def webDocker : DockerInfo :=
  { Name := "/web", ID := "4f2a", Image := "nginx:1.25", Hostname := "web-1" }

/-- The docker descriptor of `solo`. -/
def soloDocker : DockerInfo :=
  { Name := "/solo", ID := "77aa", Image := "redis:7", Hostname := "solo-1" }

/-- The record `Stream` builds for `jsonMessage` from `warmState`. -/
def jsonRecord : GoMap Value :=
  [("index", Value.str "checkout"),
   ("rancher", Value.rancherInfo (some webInfo)),
   ("docker", Value.dockerInfo webDocker),
   ("team", Value.str "core"),
   ("env", Value.str "prod"),
   ("level", Value.str "info")]

/-- The record `Stream` builds for `plainMessage` from `warmState`. -/
def plainRecord : GoMap Value :=
  [("index", Value.str "solo-1"),
   ("rancher", Value.rancherInfo (some soloInfo)),
   ("docker", Value.dockerInfo soloDocker),
   ("message", Value.str "plain text line")]

/-- The record `Stream` builds for `soloMessage` from `warmState` under
`shadowEnv`. -/
def shadowRecord : GoMap Value :=
  [("index", Value.str "solo-1"),
   ("rancher", Value.rancherInfo (some soloInfo)),
   ("docker", Value.dockerInfo soloDocker),
   ("level", Value.str "info")]

/-- The line `json.Marshal` writes for `jsonRecord`. -/
def jsonLine : String :=
  "\x7b\"docker\":\x7b\"name\":\"/web\",\"id\":\"4f2a\",\"image\":\"nginx:1.25\"," ++
  "\"hostname\":\"web-1\"\x7d,\"env\":\"prod\",\"index\":\"checkout\",\"level\":\"info\"," ++
  "\"rancher\":\x7b\"environment\":\"production\",\"container\":\x7b\"name\":" ++
  "\"checkout-web-1\",\"ip\":\"10.42.0.7\",\"once\":\"1i42\",\"hostId\":\"1h7\"," ++
  "\"dockerId\":\"4f2a\"\x7d,\"stack\":\x7b\"service\":\"web\",\"stackName\":\"checkout\"," ++
  "\"stackState\":\"active\"\x7d\x7d,\"team\":\"core\"\x7d"

/-- The bytes of `jsonLine`, all of them ASCII. -/
def jsonBytes : List Byte :=
  jsonLine.data.map Char.toNat

/-- A log line of `web` that is a JSON object with a number outside float64. -/
def rangeMessage : Message :=
  { Data := "\x7b\"a\":1e999\x7d", Container := web }

/-- The record `Stream` builds for `rangeMessage` from `warmState`. -/
def rangeRecord : GoMap Value :=
  [("index", Value.str "checkout"),
   ("rancher", Value.rancherInfo (some webInfo)),
   ("docker", Value.dockerInfo webDocker),
   ("team", Value.str "core"),
   ("env", Value.str "prod"),
   ("message", Value.str "\x7b\"a\":1e999\x7d")]

/-- The state `warmState` once the fields of `web` are stored. -/
def warmWeb : State :=
  { warmState with logstashFields := [("4f2a", [("team", "core"), ("env", "prod")])] }

/-- The state `warmState` once the fields of `solo` are stored. -/
def warmSolo : State :=
  { warmState with logstashFields := [("77aa", [])] }

/-- The state `warmState` once the fields of `solo` under `shadowEnv` are stored. -/
def warmShadow : State :=
  { warmState with logstashFields := [("77aa", [("rancher", "y"), ("docker", "x")])] }

/-! ## Facts about maps -/

theorem mapGet_filter_ne {V : Type} (m : GoMap V) (k k' : String) (h : k ≠ k') :
    mapGet (m.filter (fun p => !decide (p.1 = k))) k' = mapGet m k' := by
  induction m with
  | nil => rfl
  | cons p m ih =>
    obtain ⟨a, b⟩ := p
    by_cases ha : a = k
    · subst ha
      rw [List.filter_cons_of_neg (by simp)]
      simp [mapGet, ih, h]
    · rw [List.filter_cons_of_pos (by simp [ha])]
      by_cases hb : a = k'
      · simp [mapGet, hb]
      · simp [mapGet, hb, ih]

theorem mapGet_mapSet {V : Type} (m : GoMap V) (k : String) (v : V) (k' : String) :
    mapGet (mapSet m k v) k' = if k = k' then some v else mapGet m k' := by
  unfold mapSet
  by_cases h : k = k'
  · simp [mapGet, h]
  · simp only [mapGet, h, if_false]
    exact mapGet_filter_ne m k k' h

theorem mapGet_mapSet_self {V : Type} (m : GoMap V) (k : String) (v : V) :
    mapGet (mapSet m k v) k = some v := by
  simp [mapGet_mapSet]

theorem mapGet_mapSet_ne {V : Type} (m : GoMap V) (k : String) (v : V) (k' : String)
    (h : k ≠ k') : mapGet (mapSet m k v) k' = mapGet m k' := by
  simp [mapGet_mapSet, h]

theorem mem_mapKeys_iff {V : Type} (m : GoMap V) (k : String) :
    k ∈ mapKeys m ↔ (mapGet m k).isSome = true := by
  induction m with
  | nil => simp [mapKeys, mapGet]
  | cons p m ih =>
    obtain ⟨a, b⟩ := p
    by_cases ha : a = k
    · simp [mapKeys, mapGet, ha]
    · have ih2 : k ∈ List.map Prod.fst m ↔ (mapGet m k).isSome = true := ih
      have hne : ¬ k = a := fun h => ha h.symm
      simp [mapKeys, mapGet, ha, hne, ih2]

theorem mem_mapKeys_mapSet {V : Type} (m : GoMap V) (k : String) (v : V) (k' : String) :
    k' ∈ mapKeys (mapSet m k v) ↔ k' = k ∨ k' ∈ mapKeys m := by
  rw [mem_mapKeys_iff, mem_mapKeys_iff, mapGet_mapSet]
  by_cases h : k = k'
  · simp [h]
  · have hne : ¬ k' = k := fun h2 => h h2.symm
    simp [h, hne]

/-! ## Facts about `GetLogstashFields` -/

theorem splitChars_ne_nil (sep : Char) (l : List Char) : splitChars sep l ≠ [] := by
  induction l with
  | nil => simp [splitChars]
  | cons c cs ih =>
    unfold splitChars
    split
    · simp
    · split <;> simp

theorem splitChars_of_not_mem (sep : Char) (l : List Char) (h : sep ∉ l) :
    splitChars sep l = [l] := by
  induction l with
  | nil => rfl
  | cons c cs ih =>
    have hc : ¬ c = sep := fun e => h (by simp [e])
    have hcs : sep ∉ cs := fun e => h (by simp [e])
    unfold splitChars
    simp [hc, ih hcs]

theorem splitChars_of_mem (sep : Char) (l : List Char) (h : sep ∈ l) :
    ∃ a b rest, splitChars sep l = a :: b :: rest := by
  induction l with
  | nil => simp at h
  | cons c cs ih =>
    unfold splitChars
    by_cases hc : c = sep
    · simp only [hc, if_true]
      cases hs : splitChars sep cs with
      | nil => exact absurd hs (splitChars_ne_nil sep cs)
      | cons x xs => exact ⟨[], x, xs, rfl⟩
    · simp only [hc, if_false]
      have hcs : sep ∈ cs := by
        rcases List.mem_cons.mp h with e | e
        · exact absurd e.symm hc
        · exact e
      obtain ⟨a, b, rest, hab⟩ := ih hcs
      rw [hab]
      exact ⟨c :: a, b, rest, rfl⟩

theorem parseFields_of_malformed (segs : List String) (acc : GoMap String)
    (h : ∃ seg ∈ segs, '=' ∉ seg.data) : parseFields segs acc = .error .indexOutOfRange := by
  induction segs generalizing acc with
  | nil => simp at h
  | cons f fs ih =>
    unfold parseFields
    by_cases hf : '=' ∈ f.data
    · obtain ⟨a, b, rest, hab⟩ := splitChars_of_mem '=' f.data hf
      have hfs : ∃ seg ∈ fs, '=' ∉ seg.data := by
        obtain ⟨seg, hseg, hno⟩ := h
        rcases List.mem_cons.mp hseg with e | e
        · subst e
          exact absurd hf hno
        · exact ⟨seg, e, hno⟩
      simp only [stringsSplit, hab, List.map_cons]
      exact ih _ hfs
    · simp [stringsSplit, splitChars_of_not_mem '=' f.data hf]

theorem parseFields_of_wellformed (segs : List String) (acc : GoMap String)
    (h : ∀ seg ∈ segs, '=' ∈ seg.data) : ∃ fields, parseFields segs acc = .ok fields := by
  induction segs generalizing acc with
  | nil => exact ⟨acc, rfl⟩
  | cons f fs ih =>
    unfold parseFields
    obtain ⟨a, b, rest, hab⟩ := splitChars_of_mem '=' f.data (h f (by simp))
    simp only [stringsSplit, hab, List.map_cons]
    exact ih _ (fun seg hseg => h seg (by simp [hseg]))

theorem effectiveFieldString_cons (e : String) (es : List String) (dflt : String) :
    effectiveFieldString (e :: es) dflt =
      if stringsHasPrefix e "LOGSTASH_FIELDS=" then
        effectiveFieldString es (String.mk (e.data.drop 16))
      else effectiveFieldString es dflt := by
  unfold effectiveFieldString
  by_cases hp : stringsHasPrefix e "LOGSTASH_FIELDS=" = true
  · rw [List.filter_cons_of_pos (p := fun e => stringsHasPrefix e "LOGSTASH_FIELDS=") hp]
    simp only [hp, if_true]
    cases hl : (es.filter (fun e => stringsHasPrefix e "LOGSTASH_FIELDS=")).getLast? with
    | none =>
      have : es.filter (fun e => stringsHasPrefix e "LOGSTASH_FIELDS=") = [] := by
        simpa using hl
      simp [this]
    | some x =>
      cases hfl : es.filter (fun e => stringsHasPrefix e "LOGSTASH_FIELDS=") with
      | nil => simp [hfl] at hl
      | cons y ys =>
        rw [hfl] at hl
        simp [List.getLast?_cons_cons, hl]
  · rw [List.filter_cons_of_neg (p := fun e => stringsHasPrefix e "LOGSTASH_FIELDS=") hp]
    simp [hp]

theorem envOverride_eq_effective (env : List String) (dflt : String) :
    envOverride env dflt = effectiveFieldString env dflt := by
  induction env generalizing dflt with
  | nil => rfl
  | cons e es ih =>
    rw [effectiveFieldString_cons]
    unfold envOverride
    by_cases hp : stringsHasPrefix e "LOGSTASH_FIELDS=" = true
    · have ht : stringsTrimPrefix e "LOGSTASH_FIELDS=" = String.mk (e.data.drop 16) := by
        unfold stringsTrimPrefix
        rw [if_pos hp]
        rfl
      simp only [hp, if_true, ht]
      exact ih _
    · simp only [hp]
      exact ih _

theorem string_length_pos_iff (t : String) : t.length > 0 ↔ t ≠ "" := by
  constructor
  · intro h e
    subst e
    simp at h
  · intro h
    by_contra hn
    have h0 : t.length = 0 := by omega
    have hd : t.data = [] := List.length_eq_zero.mp h0
    exact h (String.ext hd)

/-! ## Frame facts: which parts of the state a call leaves alone -/

theorem GetLogstashFields_hit (getenv : String) (c : Container) (s : State) (fields : GoMap String)
    (h : mapGet s.logstashFields c.ID = some fields) :
    GetLogstashFields getenv c s = (.ok fields, s) := by
  unfold GetLogstashFields
  rw [h]

theorem GetLogstashFields_ok_cached (getenv : String) (c : Container) (s s1 : State)
    (fields : GoMap String) (h : GetLogstashFields getenv c s = (.ok fields, s1)) :
    mapGet s1.logstashFields c.ID = some fields := by
  unfold GetLogstashFields at h
  split at h
  · next f hf =>
    simp only [Prod.mk.injEq, Except.ok.injEq] at h
    obtain ⟨h1, h2⟩ := h
    subst h1 h2
    exact hf
  · split at h
    · simp at h
    · next f hf =>
      simp only [Prod.mk.injEq, Except.ok.injEq] at h
      obtain ⟨h1, h2⟩ := h
      subst h1 h2
      exact mapGet_mapSet_self _ _ _

theorem GetLogstashFields_keeps (getenv : String) (c : Container) (s : State) (k : String)
    (f : GoMap String) (h : mapGet s.logstashFields k = some f) :
    mapGet (GetLogstashFields getenv c s).2.logstashFields k = some f := by
  unfold GetLogstashFields
  split
  · exact h
  · next hmiss =>
    split
    · exact h
    · have hne : c.ID ≠ k := by
        intro e
        rw [e] at hmiss
        rw [hmiss] at h
        exact Option.noConfusion h
      show mapGet (mapSet s.logstashFields c.ID _) k = some f
      rw [mapGet_mapSet_ne _ _ _ _ hne]
      exact h

theorem GetLogstashFields_frame (getenv : String) (c : Container) (s : State) :
    (GetLogstashFields getenv c s).2.cCache = s.cCache ∧
    (GetLogstashFields getenv c s).2.calls = s.calls ∧
    (GetLogstashFields getenv c s).2.writes = s.writes := by
  unfold GetLogstashFields
  split
  · exact ⟨rfl, rfl, rfl⟩
  · split <;> exact ⟨rfl, rfl, rfl⟩

theorem GetRancherId_frame (E : Env) (cID : String) (s : State) :
    (GetRancherId E cID s).2.cCache = s.cCache ∧
    (GetRancherId E cID s).2.logstashFields = s.logstashFields ∧
    (GetRancherId E cID s).2.writes = s.writes ∧
    (GetRancherId E cID s).2.calls = s.calls ++ [RemoteCall.containerList cID] := by
  unfold GetRancherId
  simp only
  split
  · exact ⟨rfl, rfl, rfl, rfl⟩
  · split <;> exact ⟨rfl, rfl, rfl, rfl⟩

theorem GetRancherId_never_nil (E : Env) (cID : String) (s : State) :
    (GetRancherId E cID s).1 ≠ .ok none := by
  unfold GetRancherId
  simp only
  split
  · simp
  · split <;> simp

theorem Cache_keeps_fields (con : Option RancherInfo) (s : State) :
    (Cache con s).2.logstashFields = s.logstashFields ∧ (Cache con s).2.writes = s.writes := by
  unfold Cache
  split
  · exact ⟨rfl, rfl⟩
  · split <;> exact ⟨rfl, rfl⟩

theorem ExistsInCache_iff (k : String) (s : State) :
    ExistsInCache k s = true ↔ (mapGet s.cCache k).isSome = true := by
  unfold ExistsInCache
  rw [← mem_mapKeys_iff]
  simp

theorem GetRancherInfo_hit (E : Env) (c : Container) (s : State)
    (h : ExistsInCache c.ID s = true) :
    GetRancherInfo E c s = (.ok (GetFromCache c.ID s), s) := by
  unfold GetRancherInfo
  simp [h]


theorem GetRancherInfo_miss (E : Env) (c : Container) (s : State)
    (h : ExistsInCache c.ID s = false) :
    (GetRancherInfo E c s).2.logstashFields = s.logstashFields ∧
    (GetRancherInfo E c s).2.writes = s.writes ∧
    ((∃ f, (GetRancherInfo E c s).1 = .error f ∧ (GetRancherInfo E c s).2.cCache = s.cCache) ∨
     (∃ ri a b, (GetRancherInfo E c s).1 = .ok (some ri) ∧
        (GetRancherInfo E c s).2.cCache = mapSet s.cCache c.ID (some ri) ∧
        (GetRancherInfo E c s).2.calls =
          s.calls ++ [RemoteCall.containerList c.ID, RemoteCall.serviceById a,
            RemoteCall.stackById b])) := by
  have hfr := GetRancherId_frame E c.ID s
  have hnn := GetRancherId_never_nil E c.ID s
  unfold GetRancherInfo
  simp only [h, Bool.not_false, if_true]
  split
  · next f s1 heq =>
    rw [heq] at hfr
    exact ⟨hfr.2.1, hfr.2.2.1, Or.inl ⟨f, rfl, hfr.1⟩⟩
  · next s1 heq =>
    rw [heq] at hnn
    exact absurd rfl hnn
  · next rc s1 heq =>
    rw [heq] at hfr
    obtain ⟨h1, h2, h3, h4⟩ := hfr
    simp only at h1 h2 h3 h4
    split
    · exact ⟨h2, h3, Or.inl ⟨_, rfl, h1⟩⟩
    · split
      · exact ⟨h2, h3, Or.inl ⟨_, rfl, h1⟩⟩
      · simp only [Cache]
        refine ⟨h2, h3, Or.inr ⟨_, rc.ServiceId, rc.StackId, rfl, ?_, ?_⟩⟩
        · simp only [h1]
        · simp [h4]


/-! ## Sequences of calls keep the field cache -/

theorem GetRancherInfo_keeps_fields (E : Env) (c : Container) (s : State) :
    (GetRancherInfo E c s).2.logstashFields = s.logstashFields := by
  by_cases hx : ExistsInCache c.ID s = true
  · rw [GetRancherInfo_hit E c s hx]
  · exact (GetRancherInfo_miss E c s (by simpa using hx)).1

theorem GetRancherInfo_keeps_writes (E : Env) (c : Container) (s : State) :
    (GetRancherInfo E c s).2.writes = s.writes := by
  by_cases hx : ExistsInCache c.ID s = true
  · rw [GetRancherInfo_hit E c s hx]
  · exact (GetRancherInfo_miss E c s (by simpa using hx)).2.1

theorem streamRecord_inv (E : Env) (s s2 : State) (m : Message) (data : GoMap Value)
    (h : streamRecord E s m = (.ok data, s2)) :
    ∃ fields rancherInfo,
      (GetLogstashFields E.getenv m.Container s).1 = .ok fields ∧
      GetRancherInfo E m.Container (GetLogstashFields E.getenv m.Container s).2 =
        (.ok rancherInfo, s2) ∧
      buildData E m.Data fields
        { Name := m.Container.Name, ID := m.Container.ID,
          Image := m.Container.Config.Image, Hostname := m.Container.Config.Hostname }
        rancherInfo = .ok data := by
  unfold streamRecord at h
  simp only at h
  split at h
  · simp at h
  · next fields s1 hf =>
    split at h
    · simp at h
    · next ri s2' hr =>
      simp only [Prod.mk.injEq] at h
      obtain ⟨h1, h2⟩ := h
      subst h2
      refine ⟨fields, ri, ?_, ?_, h1⟩
      · rw [hf]
      · rw [hf]
        exact hr

theorem streamRecord_keeps (E : Env) (s : State) (m : Message) (k : String) (f : GoMap String)
    (h : mapGet s.logstashFields k = some f) :
    mapGet (streamRecord E s m).2.logstashFields k = some f := by
  have h1 := GetLogstashFields_keeps E.getenv m.Container s k f h
  have h2 := GetRancherInfo_keeps_fields E m.Container (GetLogstashFields E.getenv m.Container s).2
  unfold streamRecord
  simp only
  split
  · next f1 s1 hf =>
    rw [hf] at h1
    exact h1
  · next fields s1 hf =>
    rw [hf] at h1 h2
    split
    · next f2 s2 hr =>
      rw [hr] at h2
      simp only at h2 ⊢
      rw [h2]
      exact h1
    · next ri s2 hr =>
      rw [hr] at h2
      simp only at h2 ⊢
      rw [h2]
      exact h1

theorem streamBody_keeps (E : Env) (s : State) (m : Message) (k : String) (f : GoMap String)
    (h : mapGet s.logstashFields k = some f) :
    mapGet (streamBody E s m).2.logstashFields k = some f := by
  have h1 := streamRecord_keeps E s m k f h
  unfold streamBody
  split
  · next f1 s1 hr =>
    rw [hr] at h1
    exact h1
  · next data s1 hr =>
    rw [hr] at h1
    split
    · exact h1
    · simp only
      split <;> exact h1

theorem runAction_keeps (a : Action) (s : State) (k : String) (f : GoMap String)
    (h : mapGet s.logstashFields k = some f) :
    mapGet (runAction a s).2.logstashFields k = some f := by
  cases a with
  | getLogstashFields getenv c => exact GetLogstashFields_keeps getenv c s k f h
  | getRancherInfo E c =>
    show mapGet (GetRancherInfo E c s).2.logstashFields k = some f
    rw [GetRancherInfo_keeps_fields]
    exact h
  | cache con =>
    show mapGet (Cache con s).2.logstashFields k = some f
    rw [(Cache_keeps_fields con s).1]
    exact h
  | stream E m => exact streamBody_keeps E s m k f h

theorem runActions_keeps (as : List Action) (s : State) (k : String) (f : GoMap String)
    (h : mapGet s.logstashFields k = some f) :
    mapGet (runActions s as).2.logstashFields k = some f := by
  induction as generalizing s with
  | nil => exact h
  | cons a as ih =>
    have h1 := runAction_keeps a s k f h
    unfold runActions
    split
    · next f1 s1 hr =>
      rw [hr] at h1
      exact h1
    · next u s1 hr =>
      rw [hr] at h1
      exact ih s1 h1

/-! ## The claims about the two caches -/

/-- C1: when `GetRancherInfo(c)` returns, an immediately following
`GetRancherInfo` for the same container ID returns the same value and leaves
the whole state as it was, the trace of remote calls included, whatever the
Rancher API would answer; the first call made either no remote call or the one
resolution `Container.List`, `Service.ById`, `Stack.ById`, so the two calls
together made at most one resolution. -/
theorem GetRancherInfo_second_call_is_hit (E : Env) (c : Container) (s s1 : State)
    (v : Option RancherInfo) (h : GetRancherInfo E c s = (.ok v, s1))
    (E' : Env) (c' : Container) (hid : c'.ID = c.ID) :
    GetRancherInfo E' c' s1 = (.ok v, s1) ∧
    (GetRancherInfo E' c' s1).2.calls = s1.calls ∧
    (s1.calls = s.calls ∨
      ∃ a b, s1.calls = s.calls ++
        [RemoteCall.containerList c.ID, RemoteCall.serviceById a, RemoteCall.stackById b]) := by
  have key : GetRancherInfo E' c' s1 = (.ok v, s1) ∧
      (s1.calls = s.calls ∨
        ∃ a b, s1.calls = s.calls ++
          [RemoteCall.containerList c.ID, RemoteCall.serviceById a, RemoteCall.stackById b]) := by
    by_cases hx : ExistsInCache c.ID s = true
    · rw [GetRancherInfo_hit E c s hx] at h
      simp only [Prod.mk.injEq, Except.ok.injEq] at h
      obtain ⟨h1, h2⟩ := h
      subst h2
      have hx' : ExistsInCache c'.ID s = true := by rw [hid]; exact hx
      rw [GetRancherInfo_hit E' c' s hx', hid, h1]
      exact ⟨rfl, Or.inl rfl⟩
    · have hm := GetRancherInfo_miss E c s (by simpa using hx)
      rw [h] at hm
      obtain ⟨_, _, hcase⟩ := hm
      rcases hcase with ⟨f, hf, _⟩ | ⟨ri, a, b, hv, hc, hcalls⟩
      · simp at hf
      · simp only [Except.ok.injEq] at hv
        simp only at hc hcalls
        have hget : mapGet s1.cCache c.ID = some (some ri) := by
          rw [hc]
          exact mapGet_mapSet_self _ _ _
        have hx' : ExistsInCache c'.ID s1 = true := by
          rw [hid, ExistsInCache_iff, hget]
          rfl
        rw [GetRancherInfo_hit E' c' s1 hx', hid]
        refine ⟨?_, Or.inr ⟨a, b, hcalls⟩⟩
        simp only [GetFromCache, hget, Option.getD_some, hv]
  exact ⟨key.1, by rw [key.1], key.2⟩

/-- Witness of C1: the metadata of `web` is resolved once from the empty cache,
and the second call returns it from the cache. -/
theorem GetRancherInfo_second_call_is_hit_witness :
    GetRancherInfo demoEnv web emptyState = (.ok (some webInfo), webResolved) ∧
    GetRancherInfo demoEnv webLater webResolved = (.ok (some webInfo), webResolved) :=
  ⟨rfl, (GetRancherInfo_second_call_is_hit demoEnv web emptyState webResolved (some webInfo) rfl
    demoEnv webLater rfl).1⟩

/-- C9: `GetRancherInfo` removes and changes no cache entry: every key bound
before the call is bound to the same value after it, every key other than the
ID of the container it was called with has the binding it had, every key of
the cache after the call is that ID or was a key before, and the cache grows by
at most one entry. This holds for every outcome of the call. -/
theorem GetRancherInfo_keeps_cache (E : Env) (c : Container) (s : State) :
    (∀ k v, mapGet s.cCache k = some v → mapGet (GetRancherInfo E c s).2.cCache k = some v) ∧
    (∀ k, k ≠ c.ID → mapGet (GetRancherInfo E c s).2.cCache k = mapGet s.cCache k) ∧
    (∀ k, k ∈ mapKeys (GetRancherInfo E c s).2.cCache → k = c.ID ∨ k ∈ mapKeys s.cCache) ∧
    (GetRancherInfo E c s).2.cCache.length ≤ s.cCache.length + 1 := by
  by_cases hx : ExistsInCache c.ID s = true
  · rw [GetRancherInfo_hit E c s hx]
    exact ⟨fun _ _ h => h, fun _ _ => rfl, fun _ h => Or.inr h, Nat.le_succ _⟩
  · have hx0 : ExistsInCache c.ID s = false := by simpa using hx
    have hnone : mapGet s.cCache c.ID = none := by
      cases hg : mapGet s.cCache c.ID with
      | none => rfl
      | some v =>
        exact absurd ((ExistsInCache_iff c.ID s).mpr (by rw [hg]; rfl)) hx
    obtain ⟨_, _, hcase⟩ := GetRancherInfo_miss E c s hx0
    rcases hcase with ⟨f, _, hc⟩ | ⟨ri, a, b, _, hc, _⟩
    · rw [hc]
      exact ⟨fun _ _ h => h, fun _ _ => rfl, fun _ h => Or.inr h, Nat.le_succ _⟩
    · rw [hc]
      refine ⟨?_, ?_, ?_, ?_⟩
      · intro k v hk
        have hne : c.ID ≠ k := by
          intro e
          rw [e] at hnone
          rw [hnone] at hk
          exact Option.noConfusion hk
        rw [mapGet_mapSet_ne _ _ _ _ hne]
        exact hk
      · intro k hk
        exact mapGet_mapSet_ne _ _ _ _ (fun e => hk e.symm)
      · intro k hk
        exact (mem_mapKeys_mapSet _ _ _ _).mp hk
      · unfold mapSet
        simp only [List.length_cons]
        exact Nat.succ_le_succ (List.length_filter_le _ _)

/-- C2, the code at the failing input: `ghost` is not in the cache and the list
query for its ID answers with no match and no error; `GetRancherId` indexes
`container.Data[0]` and the call ends in an index-out-of-range panic instead of
returning nil. -/
theorem GetRancherInfo_no_match_panics :
    ExistsInCache ghost.ID emptyState = false ∧
    demoEnv.containerList emptyState.calls ghost.ID = (some { Data := [] }, none) ∧
    (GetRancherInfo demoEnv ghost emptyState).1 = .error .indexOutOfRange :=
  ⟨rfl, rfl, rfl⟩

/-- Whenever the ID is not cached and the list query answers with an empty
list, the call ends in the index-out-of-range panic. -/
theorem GetRancherInfo_empty_list_panics (E : Env) (c : Container) (s : State)
    (hmiss : ExistsInCache c.ID s = false)
    (hlist : (E.containerList s.calls c.ID).1 = some { Data := [] }) :
    (GetRancherInfo E c s).1 = .error .indexOutOfRange := by
  unfold GetRancherInfo
  simp only [hmiss, Bool.not_false, if_true]
  have hr : (GetRancherId E c.ID s).1 = .error .indexOutOfRange := by
    unfold GetRancherId
    simp only [hlist]
  split
  · next f s1 heq =>
    rw [heq] at hr
    have hf : f = Failure.indexOutOfRange := by simpa using hr
    rw [hf]
  · next s1 heq =>
    rw [heq] at hr
    simp at hr
  · next rc s1 heq =>
    rw [heq] at hr
    simp at hr

/-- C6: once `GetLogstashFields(c, a)` has returned a mapping, then after any
further calls into the package (other `GetLogstashFields`, `GetRancherInfo`,
`Cache`, turns of `Stream`) a call with the same container ID returns that
mapping and leaves the state, the field cache included, as it was, whatever
the value of `LOGSTASH_FIELDS` and the `Env` of the container are then. -/
theorem GetLogstashFields_memoized (getenv : String) (c : Container) (s s1 : State)
    (fields : GoMap String) (h : GetLogstashFields getenv c s = (.ok fields, s1))
    (later : List Action) (getenv' : String) (c' : Container) (hid : c'.ID = c.ID) :
    GetLogstashFields getenv' c' (runActions s1 later).2 =
        (.ok fields, (runActions s1 later).2) ∧
    (GetLogstashFields getenv' c' (runActions s1 later).2).2.logstashFields =
        (runActions s1 later).2.logstashFields := by
  have h1 := GetLogstashFields_ok_cached getenv c s s1 fields h
  have h2 := runActions_keeps later s1 c.ID fields h1
  have h3 : GetLogstashFields getenv' c' (runActions s1 later).2 =
      (.ok fields, (runActions s1 later).2) :=
    GetLogstashFields_hit getenv' c' _ fields (by rw [hid]; exact h2)
  exact ⟨h3, by rw [h3]⟩

/-- Witness of C6: the fields of `web` are parsed once; after a metadata lookup
and a lookup of another container's fields, a call for the same ID under a
malformed default and a malformed `Env` still returns the stored mapping. -/
theorem GetLogstashFields_memoized_witness :
    (GetLogstashFields "" web emptyState).1 = .ok [("team", "core"), ("env", "prod")] ∧
    (GetLogstashFields "broken" webLater
      (runActions (GetLogstashFields "" web emptyState).2
        [Action.getRancherInfo demoEnv web, Action.getLogstashFields "a=b" solo]).2).1 =
      .ok [("team", "core"), ("env", "prod")] :=
  ⟨rfl, by
    rw [(GetLogstashFields_memoized "" web emptyState (GetLogstashFields "" web emptyState).2
      [("team", "core"), ("env", "prod")] rfl
      [Action.getRancherInfo demoEnv web, Action.getLogstashFields "a=b" solo]
      "broken" webLater rfl).1]⟩

/-- C7: for a container ID not yet in the field cache, `GetLogstashFields` ends
in the index-out-of-range panic when the effective field string (the last `Env`
entry starting with `LOGSTASH_FIELDS=`, else the process-wide default) is not
empty and one of its comma-separated segments holds no `=`, and in every other
case returns a mapping, which it has stored under the ID. -/
theorem GetLogstashFields_fails_iff_malformed (getenv : String) (c : Container) (s : State)
    (hmiss : mapGet s.logstashFields c.ID = none) :
    (malformedFieldString (effectiveFieldString c.Config.Env getenv) →
      (GetLogstashFields getenv c s).1 = .error .indexOutOfRange) ∧
    (¬ malformedFieldString (effectiveFieldString c.Config.Env getenv) →
      ∃ fields, GetLogstashFields getenv c s =
        (.ok fields, { s with logstashFields := mapSet s.logstashFields c.ID fields })) := by
  unfold GetLogstashFields
  rw [hmiss, envOverride_eq_effective]
  simp only
  constructor
  · intro hbad
    obtain ⟨hne, hseg⟩ := hbad
    have hp : parseFieldString (effectiveFieldString c.Config.Env getenv) =
        .error .indexOutOfRange := by
      unfold parseFieldString
      rw [if_pos ((string_length_pos_iff _).mpr hne)]
      exact parseFields_of_malformed _ _ hseg
    rw [hp]
  · intro hgood
    have hp : ∃ fields, parseFieldString (effectiveFieldString c.Config.Env getenv) =
        .ok fields := by
      unfold parseFieldString
      by_cases hne : effectiveFieldString c.Config.Env getenv = ""
      · rw [if_neg (fun hpos => (string_length_pos_iff _).mp hpos hne)]
        exact ⟨[], rfl⟩
      · rw [if_pos ((string_length_pos_iff _).mpr hne)]
        apply parseFields_of_wellformed
        intro seg hseg
        by_contra hno
        exact hgood ⟨hne, seg, hseg, hno⟩
    obtain ⟨fields, hf⟩ := hp
    rw [hf]
    exact ⟨fields, rfl⟩

/-- Witness of C7: the field string of `trailing` ends in a comma, so its last
segment is empty and the call panics; the field string of `web` is well formed
and the call returns its two fields. -/
theorem GetLogstashFields_fails_iff_malformed_witness :
    (GetLogstashFields "" trailing emptyState).1 = .error .indexOutOfRange ∧
    ∃ fields, GetLogstashFields "x" web emptyState =
      (.ok fields, { emptyState with logstashFields := mapSet [] "4f2a" fields }) :=
  ⟨(GetLogstashFields_fails_iff_malformed "" trailing emptyState rfl).1 (by decide),
   (GetLogstashFields_fails_iff_malformed "x" web emptyState rfl).2 (by decide)⟩


/-! ## Facts about the record -/

theorem overlayFields_nil_data (fields : GoMap String) :
    overlayFields fields none = .ok none ∨ overlayFields fields none = .error .nilMapAssign := by
  induction fields with
  | nil => exact Or.inl rfl
  | cons p rest ih =>
    obtain ⟨k, v⟩ := p
    unfold overlayFields
    rcases ih with h | h <;> rw [h] <;> exact Or.inr rfl

theorem overlayFields_some (fields : GoMap String) (d : GoMap Value) :
    ∃ d1, overlayFields fields (some d) = .ok (some d1) ∧
      ∀ k, mapGet d1 k =
        match mapGet fields k with
        | some v => some (Value.str v)
        | none => mapGet d k := by
  induction fields with
  | nil => exact ⟨d, rfl, fun k => rfl⟩
  | cons p rest ih =>
    obtain ⟨k0, v0⟩ := p
    obtain ⟨d2, h2, hget⟩ := ih
    refine ⟨mapSet d2 k0 (Value.str v0), ?_, ?_⟩
    · unfold overlayFields
      rw [h2]
    · intro k
      rw [mapGet_mapSet]
      by_cases hk : k0 = k
      · simp [mapGet, hk]
      · simp only [mapGet, hk, if_false]
        exact hget k

theorem buildData_inv (E : Env) (raw : String) (fields : GoMap String) (di : DockerInfo)
    (ri : Option RancherInfo) (data : GoMap Value)
    (h : buildData E raw fields di ri = .ok data) :
    ∃ d0 d1 r st idx,
      parseData E raw = some d0 ∧
      (∀ k, mapGet d1 k =
        match mapGet fields k with
        | some v => some (Value.str v)
        | none => mapGet d0 k) ∧
      ri = some r ∧ r.Stack = some st ∧
      (st.StackName ≠ "" → idx = st.StackName) ∧
      (st.StackName = "" → ∃ c, r.Container = some c ∧ idx = c.Name) ∧
      data = mapSet (mapSet (mapSet d1 "docker" (Value.dockerInfo di)) "rancher"
        (Value.rancherInfo ri)) "index" (Value.str idx) := by
  unfold buildData at h
  cases hp : parseData E raw with
  | none =>
    rw [hp] at h
    rcases overlayFields_nil_data fields with ho | ho <;> rw [ho] at h <;> simp at h
  | some d0 =>
    rw [hp] at h
    obtain ⟨d1, ho, hget⟩ := overlayFields_some fields d0
    rw [ho] at h
    simp only at h
    cases ri with
    | none => simp at h
    | some r =>
      simp only at h
      cases hst : r.Stack with
      | none =>
        rw [hst] at h
        simp at h
      | some st =>
        rw [hst] at h
        simp only at h
        by_cases hn : st.StackName = ""
        · rw [if_neg (fun hne => hne hn)] at h
          cases hc : r.Container with
          | none =>
            rw [hc] at h
            simp at h
          | some c =>
            rw [hc] at h
            simp only [Except.ok.injEq] at h
            exact ⟨d0, d1, r, st, c.Name, rfl, hget, rfl, hst, fun hne => absurd hn hne,
              fun _ => ⟨c, hc, rfl⟩, h.symm⟩
        · rw [if_pos hn] at h
          simp only [Except.ok.injEq] at h
          exact ⟨d0, d1, r, st, st.StackName, rfl, hget, rfl, hst, fun _ => rfl,
            fun he => absurd he hn, h.symm⟩


theorem mem_mapKeys_foldl_mapSet (kvs : List (String × Value)) (acc : GoMap Value) (k : String) :
    k ∈ mapKeys (kvs.foldl (fun m p => mapSet m p.1 p.2) acc) ↔
      k ∈ mapKeys acc ∨ k ∈ kvs.map Prod.fst := by
  induction kvs generalizing acc with
  | nil => simp
  | cons p rest ih =>
    simp only [List.foldl_cons, List.map_cons, List.mem_cons]
    rw [ih, mem_mapKeys_mapSet]
    constructor
    · rintro ((h | h) | h)
      · exact Or.inr (Or.inl h)
      · exact Or.inl h
      · exact Or.inr (Or.inr h)
    · rintro (h | h | h)
      · exact Or.inl (Or.inr h)
      · exact Or.inl (Or.inl h)
      · exact Or.inr h

theorem mem_mapKeys_objectMap (kvs : List (String × Value)) (k : String) :
    k ∈ mapKeys (objectMap kvs) ↔ k ∈ kvs.map Prod.fst := by
  unfold objectMap
  rw [mem_mapKeys_foldl_mapSet]
  simp [mapKeys]

theorem mapGet_record (d1 : GoMap Value) (a b c : Value) (k : String)
    (h1 : k ≠ "docker") (h2 : k ≠ "rancher") (h3 : k ≠ "index") :
    mapGet (mapSet (mapSet (mapSet d1 "docker" a) "rancher" b) "index" c) k = mapGet d1 k := by
  rw [mapGet_mapSet_ne _ _ _ _ (fun e => h3 e.symm),
    mapGet_mapSet_ne _ _ _ _ (fun e => h2 e.symm),
    mapGet_mapSet_ne _ _ _ _ (fun e => h1 e.symm)]

theorem mem_mapKeys_record (d1 : GoMap Value) (a b c : Value) (k : String) :
    k ∈ mapKeys (mapSet (mapSet (mapSet d1 "docker" a) "rancher" b) "index" c) ↔
      k ∈ mapKeys d1 ∨ k = "docker" ∨ k = "rancher" ∨ k = "index" := by
  rw [mem_mapKeys_mapSet, mem_mapKeys_mapSet, mem_mapKeys_mapSet]
  constructor
  · rintro (h | h | h | h)
    · exact Or.inr (Or.inr (Or.inr h))
    · exact Or.inr (Or.inr (Or.inl h))
    · exact Or.inr (Or.inl h)
    · exact Or.inl h
  · rintro (h | h | h | h)
    · exact Or.inr (Or.inr (Or.inr h))
    · exact Or.inr (Or.inr (Or.inl h))
    · exact Or.inr (Or.inl h)
    · exact Or.inl h

theorem mem_mapKeys_overlay (fields : GoMap String) (d0 d1 : GoMap Value)
    (hget : ∀ k, mapGet d1 k =
      match mapGet fields k with
      | some v => some (Value.str v)
      | none => mapGet d0 k) (k : String) :
    k ∈ mapKeys d1 ↔ k ∈ mapKeys fields ∨ k ∈ mapKeys d0 := by
  rw [mem_mapKeys_iff, mem_mapKeys_iff, mem_mapKeys_iff, hget k]
  cases mapGet fields k with
  | none => simp
  | some v => simp

theorem parseData_of_error (E : Env) (raw : String)
    (herr : (jsonUnmarshal E raw).2.isSome = true) :
    parseData E raw = some (mapSet [] "message" (Value.str raw)) := by
  unfold parseData
  simp only [herr, if_true]

theorem decodeMembers_keys (parseFloat : String → Option Nat)
    (members : List (String × Json)) :
    (decodeMembers parseFloat members).1.map Prod.fst = members.map Prod.fst := by
  induction members with
  | nil => simp [decodeMembers]
  | cons p ms ih =>
    obtain ⟨k, j⟩ := p
    simp [decodeMembers, ih]

theorem jsonUnmarshal_of_object (E : Env) (raw : String) (members : List (String × Json))
    (hobj : E.parseJSON raw = some (Json.object members)) :
    jsonUnmarshal E raw =
      (some (objectMap (decodeMembers E.parseFloat members).1),
        (decodeMembers E.parseFloat members).2) := by
  unfold jsonUnmarshal
  rw [hobj]

theorem parseData_of_object (E : Env) (raw : String) (members : List (String × Json))
    (hobj : E.parseJSON raw = some (Json.object members))
    (hok : (jsonUnmarshal E raw).2 = none) :
    parseData E raw = some (objectMap (decodeMembers E.parseFloat members).1) := by
  unfold parseData
  simp only [hok, Option.isSome_none, Bool.false_eq_true, if_false]
  rw [jsonUnmarshal_of_object E raw members hobj]

theorem streamRecord_keeps_writes (E : Env) (s : State) (m : Message) :
    (streamRecord E s m).2.writes = s.writes := by
  have h1 := (GetLogstashFields_frame E.getenv m.Container s).2.2
  have h2 := GetRancherInfo_keeps_writes E m.Container (GetLogstashFields E.getenv m.Container s).2
  unfold streamRecord
  simp only
  split
  · next f1 s1 hf =>
    rw [hf] at h1
    exact h1
  · next fields s1 hf =>
    rw [hf] at h1 h2
    split
    · next f2 s2 hr =>
      rw [hr] at h2
      simp only at h1 h2 ⊢
      rw [h2, h1]
    · next ri s2 hr =>
      rw [hr] at h2
      simp only at h1 h2 ⊢
      rw [h2, h1]


/-! ## Facts about `json.Marshal`: no newline in its output -/

theorem hexDigit_ne_newline (d : Nat) : hexDigit d ≠ 10 := by
  unfold hexDigit
  split <;> omega

theorem utf8_no_newline (n : Nat) (h : n ≠ 10) : 10 ∉ utf8 n := by
  unfold utf8
  split
  · simp
    omega
  · split
    · simp
      omega
    · split
      · simp
        omega
      · simp
        omega

theorem escapeChar_no_newline (c : Char) : 10 ∉ escapeChar c := by
  unfold escapeChar
  simp only
  have hx := hexDigit_ne_newline (c.toNat / 16)
  have hy := hexDigit_ne_newline (c.toNat % 16)
  split
  · split
    · next hs =>
      simp only [htmlSafe, Bool.and_eq_true, decide_eq_true_eq] at hs
      simp
      omega
    · split
      · simp
        omega
      · split
        · simp
        · split
          · simp
          · split
            · simp
            · split
              · simp
              · split
                · simp
                · simp
                  omega
  · split
    · simp
      omega
    · apply utf8_no_newline
      omega

theorem encodeString_no_newline (s : String) : 10 ∉ encodeString s := by
  unfold encodeString
  simp only [List.mem_append, List.mem_singleton, List.mem_flatMap, not_or, not_exists, not_and]
  refine ⟨⟨by decide, ?_⟩, by decide⟩
  intro c _
  exact escapeChar_no_newline c

theorem NumChar_byte_ne_newline (c : NumChar) : c.byte ≠ 10 := by
  cases c with
  | digit d =>
    show 48 + d.val ≠ 10
    omega
  | point => decide
  | exponent => decide
  | plus => decide
  | minus => decide

theorem joinComma_no_newline (parts : List (List Nat)) (h : ∀ p ∈ parts, 10 ∉ p) :
    10 ∉ joinComma parts := by
  induction parts with
  | nil => simp [joinComma]
  | cons b bs ih =>
    cases bs with
    | nil =>
      simp only [joinComma]
      exact h b (by simp)
    | cons c cs =>
      simp only [joinComma, List.mem_append, List.mem_singleton, not_or]
      refine ⟨⟨h b (by simp), by decide⟩, ?_⟩
      exact ih (fun p hp => h p (List.mem_cons_of_mem _ hp))

theorem entry_no_newline (k : String) (b : List Nat) (h : 10 ∉ b) :
    10 ∉ encodeString k ++ [58] ++ b := by
  simp only [List.mem_append, List.mem_singleton, not_or]
  exact ⟨⟨encodeString_no_newline k, by decide⟩, h⟩

theorem encodeStruct_no_newline (fields : List (String × Option (List Nat)))
    (h : ∀ f ∈ fields, ∀ b, f.2 = some b → 10 ∉ b) : 10 ∉ encodeStruct fields := by
  unfold encodeStruct
  simp only [List.mem_append, List.mem_singleton, not_or]
  refine ⟨⟨by decide, ?_⟩, by decide⟩
  apply joinComma_no_newline
  intro p hp
  obtain ⟨f, hf, hfp⟩ := List.mem_filterMap.mp hp
  cases hv : f.2 with
  | none =>
    rw [hv] at hfp
    simp at hfp
  | some b =>
    rw [hv] at hfp
    simp only [Option.map_some', Option.some.injEq] at hfp
    rw [← hfp]
    exact entry_no_newline f.1 b (h f hf b hv)

theorem omitEmpty_no_newline (s : String) (b : List Nat) (h : omitEmpty s = some b) :
    10 ∉ b := by
  unfold omitEmpty at h
  split at h
  · simp at h
  · simp only [Option.some.injEq] at h
    rw [← h]
    exact encodeString_no_newline s

theorem encodeDockerInfo_no_newline (d : DockerInfo) : 10 ∉ encodeDockerInfo d := by
  unfold encodeDockerInfo
  apply encodeStruct_no_newline
  intro f hf b hb
  simp only [List.mem_cons, List.mem_singleton, List.not_mem_nil, or_false] at hf
  rcases hf with e | e | e | e <;> subst e <;> simp only [Option.some.injEq] at hb <;>
    rw [← hb] <;> exact encodeString_no_newline _

theorem encodeRancherContainer_no_newline (c : RancherContainer) :
    10 ∉ encodeRancherContainer c := by
  unfold encodeRancherContainer
  apply encodeStruct_no_newline
  intro f hf b hb
  simp only [List.mem_cons, List.mem_singleton, List.not_mem_nil, or_false] at hf
  rcases hf with e | e | e | e | e
  · subst e
    simp only [Option.some.injEq] at hb
    rw [← hb]
    exact encodeString_no_newline _
  all_goals
    subst e
    exact omitEmpty_no_newline _ b hb

theorem encodeRancherStack_no_newline (st : RancherStack) :
    10 ∉ encodeRancherStack st := by
  unfold encodeRancherStack
  apply encodeStruct_no_newline
  intro f hf b hb
  simp only [List.mem_cons, List.mem_singleton, List.not_mem_nil, or_false] at hf
  rcases hf with e | e | e
  all_goals
    subst e
    exact omitEmpty_no_newline _ b hb

theorem encodeRancherInfo_no_newline (r : Option RancherInfo) :
    10 ∉ encodeRancherInfo r := by
  cases r with
  | none =>
    unfold encodeRancherInfo
    decide
  | some r =>
    unfold encodeRancherInfo
    apply encodeStruct_no_newline
    intro f hf b hb
    simp only [List.mem_cons, List.mem_singleton, List.not_mem_nil, or_false] at hf
    rcases hf with e | e | e
    · subst e
      exact omitEmpty_no_newline _ b hb
    · subst e
      obtain ⟨c, _, hc⟩ := Option.map_eq_some'.mp hb
      rw [← hc]
      exact encodeRancherContainer_no_newline c
    · subst e
      obtain ⟨st, _, hst⟩ := Option.map_eq_some'.mp hb
      rw [← hst]
      exact encodeRancherStack_no_newline st

theorem mem_insertEntry {α : Type} (p q : String × α) (l : List (String × α))
    (h : q ∈ insertEntry p l) : q = p ∨ q ∈ l := by
  induction l with
  | nil =>
    simp only [insertEntry, List.mem_singleton] at h
    exact Or.inl h
  | cons a as ih =>
    unfold insertEntry at h
    split at h
    · rcases List.mem_cons.mp h with e | e
      · exact Or.inl e
      · exact Or.inr e
    · rcases List.mem_cons.mp h with e | e
      · exact Or.inr (by rw [e]; exact List.mem_cons_self _ _)
      · rcases ih e with e2 | e2
        · exact Or.inl e2
        · exact Or.inr (List.mem_cons_of_mem _ e2)

theorem mem_sortEntries {α : Type} (q : String × α) (l : List (String × α))
    (h : q ∈ sortEntries l) : q ∈ l := by
  induction l with
  | nil => simp [sortEntries] at h
  | cons a as ih =>
    unfold sortEntries at h
    rcases mem_insertEntry a q _ h with e | e
    · rw [e]
      exact List.mem_cons_self _ _
    · exact List.mem_cons_of_mem _ (ih e)

theorem mem_mapEntries {V : Type} (q : String × V) (m : GoMap V)
    (h : q ∈ mapEntries m) : q ∈ m := by
  induction m with
  | nil => simp [mapEntries] at h
  | cons a as ih =>
    obtain ⟨k, v⟩ := a
    unfold mapEntries at h
    rcases List.mem_cons.mp h with e | e
    · rw [e]
      exact List.mem_cons_self _ _
    · exact List.mem_cons_of_mem _ (ih (List.mem_filter.mp e).1)

theorem collectEntries_no_newline (l : List (String × Except String (List Nat)))
    (parts : List (List Nat)) (h : collectEntries l = .ok parts)
    (hl : ∀ k b, (k, Except.ok b) ∈ l → 10 ∉ b) : ∀ p ∈ parts, 10 ∉ p := by
  induction l generalizing parts with
  | nil =>
    simp only [collectEntries, Except.ok.injEq] at h
    subst h
    simp
  | cons a as ih =>
    obtain ⟨k, r⟩ := a
    cases r with
    | error e => simp [collectEntries] at h
    | ok b =>
      simp only [collectEntries] at h
      cases hc : collectEntries as with
      | error e =>
        rw [hc] at h
        simp at h
      | ok rest =>
        rw [hc] at h
        simp only [Except.ok.injEq] at h
        subst h
        intro p hp
        rcases List.mem_cons.mp hp with e | e
        · rw [e]
          exact entry_no_newline k b (hl k b (List.mem_cons_self _ _))
        · exact ih rest hc (fun k' b' hm => hl k' b' (List.mem_cons_of_mem _ hm)) p e

theorem encodeMapEntries_no_newline (members : List (String × Except String (List Nat)))
    (js : List Nat) (h : encodeMapEntries members = .ok js)
    (hl : ∀ k b, (k, Except.ok b) ∈ members → 10 ∉ b) : 10 ∉ js := by
  unfold encodeMapEntries at h
  cases hc : collectEntries (sortEntries (mapEntries members)) with
  | error e =>
    rw [hc] at h
    simp at h
  | ok parts =>
    rw [hc] at h
    simp only [Except.ok.injEq] at h
    subst h
    simp only [List.mem_append, List.mem_singleton, not_or]
    refine ⟨⟨by decide, ?_⟩, by decide⟩
    apply joinComma_no_newline
    exact collectEntries_no_newline _ parts hc
      (fun k b hm => hl k b (mem_mapEntries _ _ (mem_sortEntries _ _ hm)))

mutual
theorem encodeValue_no_newline (formatFloat : Nat → Option (List NumChar)) :
    ∀ (v : Value) (js : List Nat), encodeValue formatFloat v = .ok js → 10 ∉ js
  | .null, js, h => by
    simp only [encodeValue, Except.ok.injEq] at h
    subst h
    decide
  | .bool true, js, h => by
    simp only [encodeValue, Except.ok.injEq] at h
    subst h
    decide
  | .bool false, js, h => by
    simp only [encodeValue, Except.ok.injEq] at h
    subst h
    decide
  | .number bits, js, h => by
    simp only [encodeValue] at h
    cases hf : formatFloat bits with
    | none =>
      rw [hf] at h
      simp at h
    | some cs =>
      rw [hf] at h
      simp only [Except.ok.injEq] at h
      subst h
      intro hm
      obtain ⟨c, _, hc⟩ := List.mem_map.mp hm
      exact NumChar_byte_ne_newline c hc
  | .str s, js, h => by
    simp only [encodeValue, Except.ok.injEq] at h
    subst h
    exact encodeString_no_newline s
  | .array items, js, h => by
    simp only [encodeValue] at h
    cases hi : encodeItems formatFloat items with
    | error e =>
      rw [hi] at h
      simp at h
    | ok parts =>
      rw [hi] at h
      simp only [Except.ok.injEq] at h
      subst h
      simp only [List.mem_append, List.mem_singleton, not_or]
      refine ⟨⟨by decide, ?_⟩, by decide⟩
      exact joinComma_no_newline parts (encodeItems_no_newline formatFloat items parts hi)
  | .object kvs, js, h => by
    simp only [encodeValue] at h
    exact encodeMapEntries_no_newline _ js h (encodeMembers_no_newline formatFloat kvs)
  | .dockerInfo d, js, h => by
    simp only [encodeValue, Except.ok.injEq] at h
    subst h
    exact encodeDockerInfo_no_newline d
  | .rancherInfo r, js, h => by
    simp only [encodeValue, Except.ok.injEq] at h
    subst h
    exact encodeRancherInfo_no_newline r
theorem encodeItems_no_newline (formatFloat : Nat → Option (List NumChar)) :
    ∀ (vs : List Value) (parts : List (List Nat)),
      encodeItems formatFloat vs = .ok parts → ∀ p ∈ parts, 10 ∉ p
  | [], parts, h => by
    simp only [encodeItems, Except.ok.injEq] at h
    subst h
    simp
  | v :: vs, parts, h => by
    simp only [encodeItems] at h
    cases hv : encodeValue formatFloat v with
    | error e =>
      rw [hv] at h
      simp at h
    | ok b =>
      rw [hv] at h
      cases hr : encodeItems formatFloat vs with
      | error e =>
        rw [hr] at h
        simp at h
      | ok bs =>
        rw [hr] at h
        simp only [Except.ok.injEq] at h
        subst h
        intro p hp
        rcases List.mem_cons.mp hp with e | e
        · rw [e]
          exact encodeValue_no_newline formatFloat v b hv
        · exact encodeItems_no_newline formatFloat vs bs hr p e
theorem encodeMembers_no_newline (formatFloat : Nat → Option (List NumChar)) :
    ∀ (kvs : List (String × Value)) (k : String) (b : List Nat),
      (k, Except.ok b) ∈ encodeMembers formatFloat kvs → 10 ∉ b
  | [], k, b, h => by
    simp [encodeMembers] at h
  | (k0, v) :: kvs, k, b, h => by
    simp only [encodeMembers, List.mem_cons, Prod.mk.injEq] at h
    rcases h with ⟨_, e⟩ | e
    · exact encodeValue_no_newline formatFloat v b e.symm
    · exact encodeMembers_no_newline formatFloat kvs k b e
end

theorem jsonMarshal_no_newline (E : Env) (data : GoMap Value) (js : List Byte)
    (h : jsonMarshal E data = .ok js) : 10 ∉ js :=
  encodeMapEntries_no_newline _ js h (encodeMembers_no_newline E.formatFloat data)

/-! ## The claims about the record and the write -/

/-- C3: when `Stream` builds a record and the resolved metadata is the non-nil
`r`, the stack of `r` is non-nil and the record's `index` is its `StackName` if
that is not empty, and otherwise the `Name` of the (then non-nil) container of
`r`. -/
theorem Stream_index_from_metadata (E : Env) (s s2 : State) (m : Message) (data : GoMap Value)
    (h : streamRecord E s m = (.ok data, s2)) (r : RancherInfo)
    (hr : (GetRancherInfo E m.Container (GetLogstashFields E.getenv m.Container s).2).1 =
      .ok (some r)) :
    ∃ st, r.Stack = some st ∧
      (st.StackName ≠ "" → mapGet data "index" = some (Value.str st.StackName)) ∧
      (st.StackName = "" →
        ∃ c, r.Container = some c ∧ mapGet data "index" = some (Value.str c.Name)) := by
  obtain ⟨fields, ri, _, hri, hb⟩ := streamRecord_inv E s s2 m data h
  obtain ⟨d0, d1, r', st, idx, _, _, hsome, hst, hi1, hi2, hdata⟩ :=
    buildData_inv E m.Data fields _ ri data hb
  rw [hri, hsome] at hr
  simp only [Except.ok.injEq, Option.some.injEq] at hr
  subst hr
  have hidx : mapGet data "index" = some (Value.str idx) := by
    rw [hdata]
    exact mapGet_mapSet_self _ _ _
  refine ⟨st, hst, ?_, ?_⟩
  · intro hne
    rw [hidx, hi1 hne]
  · intro he
    obtain ⟨c, hc, hic⟩ := hi2 he
    exact ⟨c, hc, by rw [hidx, hic]⟩

/-- Witness of C3: `solo` has an empty stack name, so the record of its plain
line takes the container name as `index`. -/
theorem Stream_index_from_metadata_witness :
    streamRecord demoEnv warmState plainMessage = (.ok plainRecord, warmSolo) ∧
    ∃ st, soloInfo.Stack = some st ∧
      (st.StackName ≠ "" → mapGet plainRecord "index" = some (Value.str st.StackName)) ∧
      (st.StackName = "" →
        ∃ c, soloInfo.Container = some c ∧
          mapGet plainRecord "index" = some (Value.str c.Name)) :=
  ⟨rfl, Stream_index_from_metadata demoEnv warmState warmSolo plainMessage plainRecord rfl
    soloInfo rfl⟩

/-- C4, the code at the failing input: the raw message `null` is valid JSON
that is not an object; `json.Unmarshal` reports no error and leaves `data`
nil, the fallback to the `message` object is skipped, and the first assignment
into `data` panics, so no record is built and the loop ends. -/
theorem Stream_null_message_panics :
    demoEnv.parseJSON nullMessage.Data = some Json.null ∧
    jsonUnmarshal demoEnv nullMessage.Data = (none, none) ∧
    (streamRecord demoEnv warmState nullMessage).1 = .error .nilMapAssign ∧
    (Stream demoEnv warmState [nullMessage, plainMessage]).1 = .error .nilMapAssign ∧
    (Stream demoEnv warmState [nullMessage, plainMessage]).2.writes = [] :=
  ⟨rfl, rfl, rfl, rfl, rfl⟩

/-- The fallback the code does take: when `json.Unmarshal` returns an error
(text that is not JSON, or JSON that is neither an object nor null) and the
record is built, its keys are exactly `message`, the static-field keys and
`docker`, `rancher`, `index`, and `message` maps to the raw text unless a
static field is named `message`. -/
theorem Stream_fallback_record (E : Env) (s s2 : State) (m : Message) (data : GoMap Value)
    (herr : (jsonUnmarshal E m.Data).2.isSome = true)
    (h : streamRecord E s m = (.ok data, s2)) :
    ∃ fields, (GetLogstashFields E.getenv m.Container s).1 = .ok fields ∧
      (∀ k, k ∈ mapKeys data ↔
        k = "message" ∨ k ∈ mapKeys fields ∨ k = "docker" ∨ k = "rancher" ∨ k = "index") ∧
      (mapGet fields "message" = none → mapGet data "message" = some (Value.str m.Data)) ∧
      (∀ v, mapGet fields "message" = some v → mapGet data "message" = some (Value.str v)) := by
  obtain ⟨fields, ri, hf, _, hb⟩ := streamRecord_inv E s s2 m data h
  obtain ⟨d0, d1, r, st, idx, hp, hget, _, _, _, _, hdata⟩ :=
    buildData_inv E m.Data fields _ ri data hb
  rw [parseData_of_error E m.Data herr] at hp
  simp only [Option.some.injEq] at hp
  subst hp
  have hmsg : mapGet data "message" = mapGet d1 "message" := by
    rw [hdata]
    exact mapGet_record d1 _ _ _ "message" (by decide) (by decide) (by decide)
  refine ⟨fields, hf, ?_, ?_, ?_⟩
  · intro k
    rw [hdata, mem_mapKeys_record, mem_mapKeys_overlay fields _ d1 hget k, mem_mapKeys_mapSet]
    simp only [mapKeys, List.map_nil, List.not_mem_nil, or_false]
    constructor
    · rintro ((h1 | h1) | h1)
      · exact Or.inr (Or.inl h1)
      · exact Or.inl h1
      · exact Or.inr (Or.inr h1)
    · rintro (h1 | h1 | h1)
      · exact Or.inl (Or.inr h1)
      · exact Or.inl (Or.inl h1)
      · exact Or.inr h1
  · intro hnone
    rw [hmsg, hget "message", hnone]
    exact mapGet_mapSet_self _ _ _
  · intro v hv
    rw [hmsg, hget "message", hv]

/-- C5, as amended: when the raw message is a JSON object, `json.Unmarshal`
returns no error for it (it returns one for a number outside float64) and
`Stream` builds the record, every key of the object is a key of the record, and every
key other than `docker`, `rancher` and `index` maps to the static field of
that name if there is one and otherwise to what the decoded object gives it. -/
theorem Stream_object_record (E : Env) (s s2 : State) (m : Message) (data : GoMap Value)
    (members : List (String × Json))
    (hobj : E.parseJSON m.Data = some (Json.object members))
    (hok : (jsonUnmarshal E m.Data).2 = none)
    (h : streamRecord E s m = (.ok data, s2)) :
    ∃ fields, (GetLogstashFields E.getenv m.Container s).1 = .ok fields ∧
      (∀ k, k ∈ members.map Prod.fst → k ∈ mapKeys data) ∧
      (∀ k, k ≠ "docker" → k ≠ "rancher" → k ≠ "index" →
        mapGet data k =
          match mapGet fields k with
          | some v => some (Value.str v)
          | none => mapGet (objectMap (decodeMembers E.parseFloat members).1) k) := by
  obtain ⟨fields, ri, hf, _, hb⟩ := streamRecord_inv E s s2 m data h
  obtain ⟨d0, d1, r, st, idx, hp, hget, _, _, _, _, hdata⟩ :=
    buildData_inv E m.Data fields _ ri data hb
  rw [parseData_of_object E m.Data members hobj hok] at hp
  simp only [Option.some.injEq] at hp
  subst hp
  refine ⟨fields, hf, ?_, ?_⟩
  · intro k hk
    rw [hdata, mem_mapKeys_record, mem_mapKeys_overlay fields _ d1 hget k]
    refine Or.inl (Or.inr ((mem_mapKeys_objectMap _ k).mpr ?_))
    rw [decodeMembers_keys]
    exact hk
  · intro k h1 h2 h3
    rw [hdata, mapGet_record d1 _ _ _ k h1 h2 h3]
    exact hget k

/-- Witness of C5: the object of `jsonMessage` has the keys `level` and
`index` and decodes without error; both are keys of the record, `level` keeps
the value of the message and `team` has the value of the static field. -/
theorem Stream_object_record_witness :
    (jsonUnmarshal demoEnv jsonMessage.Data).2 = none ∧
    "level" ∈ mapKeys jsonRecord ∧ "index" ∈ mapKeys jsonRecord ∧
    mapGet jsonRecord "level" = some (Value.str "info") ∧
    mapGet jsonRecord "team" = some (Value.str "core") := by
  obtain ⟨fields, hf, hkeys, hget⟩ :=
    Stream_object_record demoEnv warmState warmWeb jsonMessage jsonRecord
      [("level", Json.str "info"), ("index", Json.str "mine")] rfl rfl rfl
  have hfields : fields = [("team", "core"), ("env", "prod")] := by
    have h0 : (GetLogstashFields demoEnv.getenv jsonMessage.Container warmState).1 =
        .ok [("team", "core"), ("env", "prod")] := rfl
    rw [h0] at hf
    simpa using hf.symm
  subst hfields
  refine ⟨rfl, hkeys "level" (by simp), hkeys "index" (by simp), ?_, ?_⟩
  · rw [hget "level" (by decide) (by decide) (by decide)]
    rfl
  · rw [hget "team" (by decide) (by decide) (by decide)]
    rfl

/-- C5 as stated fails: the raw message of `rangeMessage` is a valid JSON
object with the key `a`, but its number is outside float64, `json.Unmarshal`
returns an error, and the record `Stream` builds is the one of the `message`
fallback, in which `a` is not a key. -/
theorem Stream_object_key_dropped :
    demoEnv.parseJSON rangeMessage.Data = some (Json.object [("a", Json.number "1e999")]) ∧
    (jsonUnmarshal demoEnv rangeMessage.Data).2 =
      some "json: cannot unmarshal number 1e999 into Go value of type float64" ∧
    streamRecord demoEnv warmState rangeMessage = (.ok rangeRecord, warmWeb) ∧
    "a" ∈ [("a", Json.number "1e999")].map Prod.fst ∧
    "a" ∉ mapKeys rangeRecord ∧
    mapGet rangeRecord "a" = none :=
  ⟨rfl, rfl, rfl, by decide, by decide, rfl⟩

/-- C8: when `Stream` has built the record of a message and `json.Marshal`
returns the bytes `js` for it, the turn of the loop passes exactly one more
byte slice to `conn.Write`, namely `js` followed by the byte 0x0A, whether or
not the write then succeeds; that slice ends in 0x0A and is `js` without it;
`js` holds no byte 0x0A, so the slice written holds exactly one, its last
byte, and the record is one line. -/
theorem Stream_writes_one_line (E : Env) (s s1 : State) (m : Message) (data : GoMap Value)
    (js : List Byte) (hrec : streamRecord E s m = (.ok data, s1))
    (hjs : jsonMarshal E data = .ok js) :
    (streamBody E s m).2.writes = s.writes ++ [js ++ [10]] ∧
    (js ++ [10]).getLast? = some 10 ∧
    (js ++ [10]).dropLast = js ∧
    10 ∉ js ∧
    (js ++ [10]).count 10 = 1 := by
  have hw := streamRecord_keeps_writes E s m
  rw [hrec] at hw
  simp only at hw
  have hnl : 10 ∉ js := jsonMarshal_no_newline E data js hjs
  refine ⟨?_, by simp, by simp, hnl, ?_⟩
  · unfold streamBody
    rw [hrec]
    simp only [hjs]
    split <;> simp only [hw]
  · rw [List.count_append, List.count_eq_zero_of_not_mem hnl]
    rfl

set_option maxRecDepth 100000 in
/-- Witness of C8: the record of `jsonMessage` is written as the one line
`jsonLine` followed by the newline. -/
theorem Stream_writes_one_line_witness :
    streamRecord demoEnv warmState jsonMessage = (.ok jsonRecord, warmWeb) ∧
    jsonMarshal demoEnv jsonRecord = .ok jsonBytes ∧
    (streamBody demoEnv warmState jsonMessage).2.writes = [jsonBytes ++ [10]] ∧
    10 ∉ jsonBytes :=
  ⟨rfl, by rfl,
   (Stream_writes_one_line demoEnv warmState warmWeb jsonMessage jsonRecord jsonBytes
      rfl (by rfl)).1,
   (Stream_writes_one_line demoEnv warmState warmWeb jsonMessage jsonRecord jsonBytes
      rfl (by rfl)).2.2.2.1⟩

/-- C10: in every record `Stream` builds, `docker` maps to the `DockerInfo` of
the message's container, `rancher` to the resolved metadata and `index` to the
index computed from that metadata, whatever the raw message and the static
fields hold under these three keys. -/
theorem Stream_reserved_keys (E : Env) (s s2 : State) (m : Message) (data : GoMap Value)
    (h : streamRecord E s m = (.ok data, s2)) :
    mapGet data "docker" = some (Value.dockerInfo
      { Name := m.Container.Name, ID := m.Container.ID,
        Image := m.Container.Config.Image, Hostname := m.Container.Config.Hostname }) ∧
    ∃ r st,
      GetRancherInfo E m.Container (GetLogstashFields E.getenv m.Container s).2 =
        (.ok (some r), s2) ∧
      mapGet data "rancher" = some (Value.rancherInfo (some r)) ∧
      r.Stack = some st ∧
      (st.StackName ≠ "" → mapGet data "index" = some (Value.str st.StackName)) ∧
      (st.StackName = "" →
        ∃ c, r.Container = some c ∧ mapGet data "index" = some (Value.str c.Name)) := by
  obtain ⟨fields, ri, _, hri, hb⟩ := streamRecord_inv E s s2 m data h
  obtain ⟨d0, d1, r, st, idx, _, _, hsome, hst, hi1, hi2, hdata⟩ :=
    buildData_inv E m.Data fields _ ri data hb
  subst hsome
  have hidx : mapGet data "index" = some (Value.str idx) := by
    rw [hdata]
    exact mapGet_mapSet_self _ _ _
  refine ⟨?_, r, st, hri, ?_, hst, ?_, ?_⟩
  · rw [hdata, mapGet_mapSet_ne _ _ _ _ (by decide), mapGet_mapSet_ne _ _ _ _ (by decide)]
    exact mapGet_mapSet_self _ _ _
  · rw [hdata, mapGet_mapSet_ne _ _ _ _ (by decide)]
    exact mapGet_mapSet_self _ _ _
  · intro hne
    rw [hidx, hi1 hne]
  · intro he
    obtain ⟨c, hc, hic⟩ := hi2 he
    exact ⟨c, hc, by rw [hidx, hic]⟩

/-- Witness of C10: the raw object of `soloMessage` has a key `index` and the
static fields under `shadowEnv` have the keys `docker` and `rancher`; the
record holds the descriptor of `solo` under `docker` all the same. -/
theorem Stream_reserved_keys_witness :
    mapGet (objectMap [("level", Value.str "info"), ("index", Value.str "mine")]) "index" =
      some (Value.str "mine") ∧
    (GetLogstashFields shadowEnv.getenv solo warmState).1 =
      .ok [("rancher", "y"), ("docker", "x")] ∧
    mapGet shadowRecord "docker" = some (Value.dockerInfo soloDocker) :=
  ⟨rfl, rfl, (Stream_reserved_keys shadowEnv warmState warmShadow soloMessage shadowRecord rfl).1⟩


/-! ## Further facts about the loop -/

theorem buildData_null_panics (E : Env) (raw : String) (fields : GoMap String) (di : DockerInfo)
    (ri : Option RancherInfo) (hnull : E.parseJSON raw = some Json.null) :
    buildData E raw fields di ri = .error .nilMapAssign := by
  have hp : parseData E raw = none := by
    unfold parseData jsonUnmarshal
    rw [hnull]
    rfl
  unfold buildData
  rw [hp]
  rcases overlayFields_nil_data fields with ho | ho <;> rw [ho]

theorem buildData_builds (E : Env) (raw : String) (fields : GoMap String) (di : DockerInfo)
    (r : RancherInfo) (st : RancherStack) (c : RancherContainer) (d0 : GoMap Value)
    (hp : parseData E raw = some d0) (hst : r.Stack = some st) (hc : r.Container = some c) :
    ∃ data, buildData E raw fields di (some r) = .ok data := by
  obtain ⟨d1, ho, _⟩ := overlayFields_some fields d0
  unfold buildData
  rw [hp, ho]
  simp only [hst, hc]
  split
  · exact ⟨_, rfl⟩
  · exact ⟨_, rfl⟩

theorem streamBody_writes (E : Env) (s : State) (m : Message) :
    (streamBody E s m).2.writes = s.writes ∨
      ∃ js, (streamBody E s m).2.writes = s.writes ++ [js ++ [10]] := by
  have hw := streamRecord_keeps_writes E s m
  unfold streamBody
  split
  · next f s1 hr =>
    rw [hr] at hw
    exact Or.inl hw
  · next data s1 hr =>
    rw [hr] at hw
    simp only at hw
    split
    · exact Or.inl hw
    · next js hjs =>
      refine Or.inr ⟨js, ?_⟩
      simp only
      split <;> simp only [hw]

theorem Stream_writes_lines (E : Env) (ms : List Message) (s : State) :
    ∃ ws, (Stream E s ms).2.writes = s.writes ++ ws ∧ ws.length ≤ ms.length ∧
      ∀ w ∈ ws, w.getLast? = some 10 := by
  induction ms generalizing s with
  | nil => exact ⟨[], by simp [Stream], Nat.le_refl _, by simp⟩
  | cons m ms ih =>
    have hb := streamBody_writes E s m
    unfold Stream
    split
    · next f s1 hr =>
      rw [hr] at hb
      rcases hb with h | ⟨js, h⟩
      · exact ⟨[], by simpa using h, Nat.zero_le _, by simp⟩
      · exact ⟨[js ++ [10]], h, by simp, by simp⟩
    · next u s1 hr =>
      rw [hr] at hb
      obtain ⟨ws, h1, h2, h3⟩ := ih s1
      rcases hb with h | ⟨js, h⟩
      · simp only at h
        refine ⟨ws, by rw [h1, h], ?_, h3⟩
        simp only [List.length_cons]
        omega
      · simp only at h
        refine ⟨(js ++ [10]) :: ws, by rw [h1, h]; simp, ?_, ?_⟩
        · simp only [List.length_cons]
          omega
        · intro w hw
          rcases List.mem_cons.mp hw with e | e
          · rw [e]
            simp
          · exact h3 w e

end Logstash
